import Mathlib

/-!
# Small-buffer vector (`src/vector.h`): embedding and verification

`test::vector<T, N>` keeps up to `N` elements in storage embedded in the object
and spills to a heap block beyond that.  The embedding below follows the source
member function by member function.

Modelling conventions.

* A buffer is a list of slots.  A slot is `none` while it is raw, uninitialised
  storage and `some x` while it holds a live object of value `x`.
* A pointer `data_` is represented by what it points at: `none` when it equals
  the address of the inline array `storage_`, and `some b` when it points at the
  heap block `b`.  Every container owns its block exclusively (the source never
  copies a `data_` pointer, it only exchanges two of them), so a block is
  carried inside the container that owns it.
* Operations return `Except Fault _`.  An error is not a C++ exception: it marks
  an execution that leaves defined behaviour (an object read from raw storage, an
  access past the end of a buffer, an iterator range whose end precedes its
  start).  Allocation and the element constructors, assignments and destructors
  are taken to succeed, which is the situation most properties below speak
  about; `reserve_traced` follows `reserve` through its exceptional paths as
  well, and records the block it hands to `::operator delete`.
* `size_t` has 64 bits.  The counters `size_` and `capacity_` are natural
  numbers; the two products the source computes in `size_t`, the byte count
  `sizeof(T) * n` handed to `::operator new` and the doubled capacity
  `capacity() * 2`, are reduced modulo `2 ^ 64`.
* A reference parameter is represented by what it refers to: an object outside
  the container, or an element of the container itself.
* A moved-from object stays a live object until it is destroyed; the embedding
  keeps its old value, which is never observed afterwards.
-/

namespace test

/-- Ways in which an execution leaves defined behaviour. -/
inductive Fault where
  /-- An object was read, assigned to or destroyed in a slot that holds none. -/
  | uninitialised
  /-- A slot past the end of its buffer was accessed. -/
  | out_of_bounds
  /-- An iterator range was given with its end before its start. -/
  | bad_range
  deriving DecidableEq, Repr

/-- The container of `src/vector.h`, lines 9-64: the inline array `storage_`
(`N` slots), the pointer `data_` (`none`: the inline array, `some b`: the heap
block `b`), and the two counters. -/
structure vector (T : Type) (N : Nat) where
  storage_ : List (Option T)
  data_ : Option (List (Option T))
  size_ : Nat
  capacity_ : Nat
  deriving DecidableEq, Repr

/-- The number of values of `size_t`, `2 ^ 64`. -/
def size_t_range : Nat := 18446744073709551616

/-- The size no object reaches, `PTRDIFF_MAX + 1 = 2 ^ 63` bytes. -/
def object_size_limit : Nat := 9223372036854775808

/-- The layout of the instantiation `vector<T, N>`: the size `sizeof(T)` of an
element in bytes, which is at least 1, and an inline array
`storage_[sizeof(T) * N]` that is an object. -/
class layout (T : Type) (N : Nat) where
  sizeof : Nat
  sizeof_pos : 0 < sizeof
  inline_fits : sizeof * N < object_size_limit

/-- The value of `sizeof(T)`. -/
def element_bytes (T : Type) (N : Nat) [inst : layout T N] : Nat := inst.sizeof

/-- The block `static_cast<T *>(::operator new(sizeof(T) * n))` of lines 74 and
147: the byte count is computed in `size_t`, and the block has the slots that
fit in that many bytes, all raw. -/
def allocate (T : Type) (N : Nat) [layout T N] (n : Nat) : List (Option T) :=
  List.replicate (element_bytes T N * n % size_t_range / element_bytes T N) none

/-- What a reference parameter of a member function (`const T &`, `T &&`)
refers to. -/
inductive reference (T : Type) where
  /-- An object that is no part of the container, of value `x`. -/
  | outside (x : T)
  /-- The element `(*this)[i]`: the object in slot `i` of the buffer the
  container uses when the call starts. -/
  | element (i : Nat)
  deriving DecidableEq, Repr

/-- An object given by its value is an object outside the container. -/
instance (T : Type) : Coe T (reference T) := ⟨reference.outside⟩

/-- A number given as argument is a temporary, outside the container. -/
instance (n : Nat) : OfNat (reference Nat) n := ⟨reference.outside n⟩

/-- With `std::string` elements (32 bytes) and `N = 8`. -/
instance : layout String 8 := ⟨32, by decide, by decide⟩

/-- With elements of 8 bytes (`unsigned long`) and `N = 8`. -/
instance : layout Nat 8 := ⟨8, by decide, by decide⟩

section primitives

variable {T : Type}

/-- Access to the object in slot `i` of a buffer, `*(p + i)`. -/
def read (b : List (Option T)) (i : Nat) : Except Fault T :=
  match b[i]? with
  | none => .error .out_of_bounds
  | some none => .error .uninitialised
  | some (some x) => .ok x

/-- Construction of an object in slot `i`: `std::construct_at(p + i, x)` and the
placement `new (p + i) T(x)`. -/
def construct_at (b : List (Option T)) (i : Nat) (x : T) : Except Fault (List (Option T)) :=
  if i < b.length then .ok (b.set i (some x)) else .error .out_of_bounds

/-- Destruction of the object in slot `i`: `std::destroy_at(p + i)`. -/
def destroy_at (b : List (Option T)) (i : Nat) : Except Fault (List (Option T)) :=
  match read b i with
  | .error e => .error e
  | .ok _ => .ok (b.set i none)

/-- Destruction of `n` objects from slot `first` on: `std::destroy_n(p + first, n)`. -/
def destroy_n (b : List (Option T)) (first : Nat) (n : Nat) : Except Fault (List (Option T)) :=
  match n with
  | 0 => .ok b
  | k + 1 =>
    match destroy_at b first with
    | .error e => .error e
    | .ok b' => destroy_n b' (first + 1) k

/-- Destruction of the objects in `[first, last)`: `std::destroy(p + first, p + last)`. -/
def destroy (b : List (Option T)) (first last : Nat) : Except Fault (List (Option T)) :=
  if last < first then .error .bad_range else destroy_n b first (last - first)

/-- Pairwise exchange of slots `i, i + 1, ..., i + n - 1` of two buffers by `std::swap`
on the objects in them (the loop of `std::swap_ranges`). -/
def swap_loop (a b : List (Option T)) (i : Nat) (n : Nat) :
    Except Fault (List (Option T) × List (Option T)) :=
  match n with
  | 0 => .ok (a, b)
  | k + 1 =>
    match read a i with
    | .error e => .error e
    | .ok x =>
      match read b i with
      | .error e => .error e
      | .ok y => swap_loop (a.set i (some y)) (b.set i (some x)) (i + 1) k

/-- Exchange of the first `last` objects of two buffers:
`std::swap_ranges(p, p + last, q)`. -/
def swap_ranges (a : List (Option T)) (last : Nat) (b : List (Option T)) :
    Except Fault (List (Option T) × List (Option T)) :=
  swap_loop a b 0 last

/-- Construction of `n` objects in `dst` from slot `dfirst` on, from the objects of
`src` from slot `first` on, in index order. -/
def construct_loop (src : List (Option T)) (first : Nat) (dst : List (Option T)) (dfirst : Nat)
    (n : Nat) : Except Fault (List (Option T)) :=
  match n with
  | 0 => .ok dst
  | k + 1 =>
    match read src first with
    | .error e => .error e
    | .ok x =>
      match construct_at dst dfirst x with
      | .error e => .error e
      | .ok dst' => construct_loop src (first + 1) dst' (dfirst + 1) k

/-- Copy construction of a range into raw storage:
`std::uninitialized_copy(p + first, p + last, q + dfirst)`. -/
def uninitialized_copy (src : List (Option T)) (first last : Nat) (dst : List (Option T))
    (dfirst : Nat) : Except Fault (List (Option T)) :=
  if last < first then .error .bad_range else construct_loop src first dst dfirst (last - first)

/-- Move construction of a range into raw storage:
`std::uninitialized_move(p + first, p + last, q + dfirst)`.  The source objects
stay live (moved from) until they are destroyed. -/
def uninitialized_move (src : List (Option T)) (first last : Nat) (dst : List (Option T))
    (dfirst : Nat) : Except Fault (List (Option T)) :=
  if last < first then .error .bad_range else construct_loop src first dst dfirst (last - first)

end primitives

namespace vector

variable {T : Type} {N : Nat}

/-- The buffer `data()` points at (lines 115-123). -/
def data (v : vector T N) : List (Option T) :=
  match v.data_ with
  | none => v.storage_
  | some b => b

/-- The container after the buffer `data()` points at has been written to. -/
def with_data (v : vector T N) (b : List (Option T)) : vector T N :=
  match v.data_ with
  | none => { v with storage_ := b }
  | some _ => { v with data_ := some b }

/-- Lines 205-208. -/
def capacity (v : vector T N) : Nat := v.capacity_

/-- Lines 210-213. -/
def size (v : vector T N) : Nat := v.size_

/-- Lines 241-244: `data_ == reinterpret_cast<T *>(storage_)`. -/
def is_using_static_buffer (v : vector T N) : Bool := v.data_.isNone

/-- Element access `operator[]` (lines 125-133), `data()[i]`. -/
def at_index (v : vector T N) (i : Nat) : Except Fault T := read v.data i

/-- Default constructor (lines 66-68). -/
def init : vector T N :=
  { storage_ := List.replicate N none, data_ := none, size_ := 0, capacity_ := N }

/-- Lines 135-139. -/
def clear (v : vector T N) : Except Fault (vector T N) :=
  match destroy_n v.data 0 v.size with
  | .error e => .error e
  | .ok b => .ok { v.with_data b with size_ := 0 }

/-- Lines 141-167, the path on which the allocation and every element
construction succeed. -/
def reserve [layout T N] (v : vector T N) (new_capacity : Nat) : Except Fault (vector T N) :=
  if new_capacity ≤ v.capacity then .ok v
  else
    match construct_loop v.data 0 (allocate T N new_capacity) 0 v.size with
    | .error e => .error e
    | .ok new_data =>
      if !v.is_using_static_buffer then
        .ok { v with data_ := some new_data, capacity_ := new_capacity }
      else
        match destroy_n v.storage_ 0 v.size with
        | .error e => .error e
        | .ok st => .ok { v with storage_ := st, data_ := some new_data, capacity_ := new_capacity }

/-- The object a reference denotes when line 174 reads it.  `before` is the
container when the call started, `now` the container after lines 171-173, and
`relocated` tells whether `reserve` took a new block in between.  An element of
the container itself is then an object of the old buffer: of the inline array,
whose objects line 162 has destroyed, or of the block line 160 has released. -/
def referent (before now : vector T N) (relocated : Bool) (value : reference T) :
    Except Fault T :=
  match value with
  | .outside x => .ok x
  | .element i =>
    if relocated then
      if before.is_using_static_buffer then read now.storage_ i
      else .error .uninitialised
    else read now.data i

/-- Lines 169-176, `push_back(const T &)`.  For an argument outside the
container the overload of lines 178-185 and `emplace_back` (lines 187-195) have
the same body and the same effect. -/
def push_back [layout T N] (v : vector T N) (value : reference T) :
    Except Fault (vector T N) :=
  let new_capacity := v.capacity * 2 % size_t_range
  match (if v.size = v.capacity then v.reserve new_capacity else .ok v) with
  | .error e => .error e
  | .ok w =>
    match referent v w (decide (v.size = v.capacity ∧ v.capacity < new_capacity)) value with
    | .error e => .error e
    | .ok x =>
      match construct_at w.data w.size x with
      | .error e => .error e
      | .ok b => .ok { w.with_data b with size_ := w.size_ + 1 }

/-- Lines 197-203. -/
def pop_back (v : vector T N) : Except Fault (vector T N) :=
  if v.size ≠ 0 then
    match destroy_at v.data (v.size_ - 1) with
    | .error e => .error e
    | .ok b => .ok { v.with_data b with size_ := v.size_ - 1 }
  else .ok v

/-- Lines 215-228.  The result is the pair (`*this`, `other`). -/
def swap_between_static_buffers (self other : vector T N) :
    Except Fault (vector T N × vector T N) :=
  if self.size_ > other.size_ then
    match swap_ranges self.data other.size_ other.data with
    | .error e => .error e
    | .ok (a, b) =>
      match uninitialized_move a other.size_ self.size_ b other.size_ with
      | .error e => .error e
      | .ok b' =>
        match destroy a other.size_ self.size_ with
        | .error e => .error e
        | .ok a' => .ok (self.with_data a', other.with_data b')
  else if self.size_ < other.size_ then
    match swap_ranges self.data self.size_ other.data with
    | .error e => .error e
    | .ok (a, b) =>
      match uninitialized_move b self.size_ other.size_ a self.size_ with
      | .error e => .error e
      | .ok a' =>
        match destroy b self.size_ other.size_ with
        | .error e => .error e
        | .ok b' => .ok (self.with_data a', other.with_data b')
  else
    match swap_ranges self.data self.size_ other.data with
    | .error e => .error e
    | .ok (a, b) => .ok (self.with_data a, other.with_data b)

/-- The loop of lines 234-236: `n` iterations from index `i` on, each one
`static_.push_back(dynamic_[i])`.  The argument refers to an element of
`dynamic_`, an object outside `static_` that the call does not touch. -/
def push_loop [layout T N] (dynamic_ : vector T N) (i : Nat) (n : Nat) (static_ : vector T N) :
    Except Fault (vector T N) :=
  match n with
  | 0 => .ok static_
  | k + 1 =>
    match dynamic_.at_index i with
    | .error e => .error e
    | .ok x =>
      match static_.push_back (.outside x) with
      | .error e => .error e
      | .ok s => push_loop dynamic_ (i + 1) k s

/-- Lines 230-239.  The result is the pair (`dynamic_`, `static_`). -/
def swap_dynamic_with_static [layout T N] (dynamic_ static_ : vector T N) :
    Except Fault (vector T N × vector T N) :=
  match swap_ranges static_.data static_.size dynamic_.data with
  | .error e => .error e
  | .ok (s, d) =>
    let static1 := static_.with_data s
    let dynamic1 := dynamic_.with_data d
    let original_size := static1.size
    match push_loop dynamic1 original_size (dynamic1.size - original_size) static1 with
    | .error e => .error e
    | .ok static2 =>
      match destroy dynamic1.data original_size dynamic1.size_ with
      | .error e => .error e
      | .ok d' => .ok (dynamic1.with_data d', { static2 with size_ := original_size })

/-- Lines 246-265.  The result is the pair (`*this`, `other`). -/
def swap [layout T N] (self other : vector T N) : Except Fault (vector T N × vector T N) :=
  let exchanged : Except Fault (vector T N × vector T N) :=
    if self.is_using_static_buffer then
      if other.is_using_static_buffer then
        swap_between_static_buffers self other
      else
        match swap_dynamic_with_static other self with
        | .error e => .error e
        | .ok (d, s) => .ok (s, d)
    else if other.is_using_static_buffer then
      swap_dynamic_with_static self other
    else
      .ok ({ self with data_ := other.data_ }, { other with data_ := self.data_ })
  match exchanged with
  | .error e => .error e
  | .ok (a, b) =>
    .ok ({ a with size_ := b.size_, capacity_ := b.capacity_ },
         { b with size_ := a.size_, capacity_ := a.capacity_ })

/-- Copy constructor (lines 70-86), the path on which the allocation and every
element copy succeed. -/
def copy_construct [layout T N] (other : vector T N) : Except Fault (vector T N) :=
  let fresh : vector T N := init
  let self : vector T N :=
    if other.size > N then { fresh with data_ := some (allocate T N other.capacity) }
    else fresh
  match uninitialized_copy other.data 0 other.size self.data 0 with
  | .error e => .error e
  | .ok b => .ok { self.with_data b with size_ := other.size, capacity_ := other.capacity }

/-- Destructor (lines 107-113): `clear()`, then the heap block is released. -/
def destruct (v : vector T N) : Except Fault Unit :=
  match v.clear with
  | .error e => .error e
  | .ok _ => .ok ()

/-- Copy assignment (lines 88-93): the new value of `*this`, once the temporary
has been destroyed. -/
def copy_assign [layout T N] (self other : vector T N) : Except Fault (vector T N) :=
  match copy_construct other with
  | .error e => .error e
  | .ok tmp =>
    match self.swap tmp with
    | .error e => .error e
    | .ok (self', tmp') =>
      match tmp'.destruct with
      | .error e => .error e
      | .ok _ => .ok self'

/-- Move assignment (lines 100-105).  The result is the pair (`*this`, `other`). -/
def move_assign [layout T N] (self other : vector T N) :
    Except Fault (vector T N × vector T N) :=
  match self.swap other with
  | .error e => .error e
  | .ok (self', other') =>
    match other'.clear with
    | .error e => .error e
    | .ok other'' => .ok (self', other'')


/-- A run of `push_back` calls, one for each value of the list in order, each
value an object outside the container (the loop of `src/benchmark.cpp`, lines
23-24). -/
def push_all [layout T N] (v : vector T N) (values : List T) : Except Fault (vector T N) :=
  match values with
  | [] => .ok v
  | x :: rest =>
    match v.push_back (.outside x) with
    | .error e => .error e
    | .ok w => w.push_all rest

/-- The slots `[0, size())` of the buffer in use, in index order. -/
def live_slots (v : vector T N) : List (Option T) := v.data.take v.size

/-- The element invariant: `size_` slots fit in the buffer in use, the slots
`[0, size_)` hold live objects and every slot from `size_` on is raw. -/
def ElementInvariant (v : vector T N) : Prop :=
  v.size_ ≤ v.data.length ∧ (∀ s ∈ v.data.take v.size_, s.isSome = true) ∧
    (∀ s ∈ v.data.drop v.size_, s.isNone = true)

/-- The capacity invariant: `capacity_` is the number of slots of the buffer in
use. -/
def CapacityInvariant (v : vector T N) : Prop :=
  v.capacity_ = v.data.length

/-- The buffer in use is an object: its `capacity_` slots take fewer than
`PTRDIFF_MAX + 1` bytes. -/
def Addressable [layout T N] (v : vector T N) : Prop :=
  element_bytes T N * v.capacity_ < object_size_limit

/-- A valid container: the inline array has `N` slots, the capacity and element
invariants hold (so `size_ ≤ capacity_`, and `capacity_ = N` while the inline
array is in use), and the buffer in use is an object. -/
def Valid [layout T N] (v : vector T N) : Prop :=
  v.storage_.length = N ∧ v.CapacityInvariant ∧ v.ElementInvariant ∧ v.Addressable

instance (v : vector T N) : Decidable v.ElementInvariant := by
  unfold ElementInvariant; infer_instance

instance (v : vector T N) : Decidable v.CapacityInvariant := by
  unfold CapacityInvariant; infer_instance

instance [layout T N] (v : vector T N) : Decidable v.Addressable := by
  unfold Addressable; infer_instance

instance [layout T N] (v : vector T N) : Decidable v.Valid := by
  unfold Valid; infer_instance

/-- The buffer in use consists of live objects of values `xs` followed by `k` raw
slots. -/
def Laid (v : vector T N) (xs : List T) (k : Nat) : Prop :=
  v.data = xs.map some ++ List.replicate k none

/-- Container `u` has the size of `w` and, index by index, the elements of `w`:
`u.size() == w.size()` and `u[i] == w[i]` for every `i < size`, each read
yielding a live object. -/
def same_elements (u w : vector T N) : Prop :=
  u.size = w.size ∧ ∀ i, i < w.size → ∃ x, w.at_index i = .ok x ∧ u.at_index i = .ok x

/-- Example with `N = 8`: a container holding `1, 2` in its inline array. -/
def example_static_two : vector Nat 8 :=
  { storage_ := [some 1, some 2, none, none, none, none, none, none], data_ := none,
    size_ := 2, capacity_ := 8 }

/-- Example with `N = 8`: a container holding `11, 12, 13, 14, 15` in its inline
array. -/
def example_static_five : vector Nat 8 :=
  { storage_ := [some 11, some 12, some 13, some 14, some 15, none, none, none], data_ := none,
    size_ := 5, capacity_ := 8 }

/-- Example with `N = 8`: a container holding `1, ..., 9` in a heap block of 16
slots, as nine `push_back` calls on an empty container leave it. -/
def example_dynamic_nine : vector Nat 8 :=
  { storage_ := List.replicate 8 none,
    data_ := some ([some 1, some 2, some 3, some 4, some 5, some 6, some 7, some 8, some 9]
      ++ List.replicate 7 none),
    size_ := 9, capacity_ := 16 }

end vector

section relocation

variable {T : Type}

/-- The relocation loop of `reserve` (lines 151-152) with an element constructor
that may throw: `ctor_ok i` tells whether the construction of the object in slot
`i` of the new block succeeds.  The result is the new block as the loop leaves it
and, when a constructor threw, the index `i` at which it did. -/
def relocate_loop (ctor_ok : Nat → Bool) (src dst : List (Option T)) (i : Nat) (n : Nat) :
    Except Fault (List (Option T) × Option Nat) :=
  match n with
  | 0 => .ok (dst, none)
  | k + 1 =>
    match read src i with
    | .error e => .error e
    | .ok x =>
      if ctor_ok i then
        match construct_at dst i x with
        | .error e => .error e
        | .ok dst' => relocate_loop ctor_ok src dst' (i + 1) k
      else .ok (dst, some i)

end relocation

namespace vector

variable {T : Type} {N : Nat}

/-- What one call of `reserve` leaves behind: the container after the call,
whether an exception left the call, and the block handed to `::operator delete`
(if any) with its slots as they were at that moment. -/
structure reserve_record (T : Type) (N : Nat) where
  after : vector T N
  thrown : Bool
  deleted : Option (List (Option T))
  deriving DecidableEq, Repr

/-- Lines 141-167 with their exceptional paths.  `alloc_ok` tells whether
`::operator new` returns a block (it throws otherwise, before the `try`), and
`ctor_ok i` whether the construction of the `i`-th relocated element succeeds
(an element type whose move constructor may throw is relocated by copy, so a
failed construction leaves its source as it was).  On a failed construction the
handler destroys the `i` objects built so far, releases the new block and
rethrows; on success the old block is released, or the objects of the inline
array are destroyed. -/
def reserve_traced [layout T N] (alloc_ok : Bool) (ctor_ok : Nat → Bool) (v : vector T N)
    (new_capacity : Nat) : Except Fault (reserve_record T N) :=
  if new_capacity ≤ v.capacity then .ok { after := v, thrown := false, deleted := none }
  else if !alloc_ok then .ok { after := v, thrown := true, deleted := none }
  else
    match relocate_loop ctor_ok v.data (allocate T N new_capacity) 0 v.size with
    | .error e => .error e
    | .ok (new_data, some i) =>
      match destroy_n new_data 0 i with
      | .error e => .error e
      | .ok cleaned => .ok { after := v, thrown := true, deleted := some cleaned }
    | .ok (new_data, none) =>
      if !v.is_using_static_buffer then
        .ok { after := { v with data_ := some new_data, capacity_ := new_capacity },
              thrown := false, deleted := v.data_ }
      else
        match destroy_n v.storage_ 0 v.size with
        | .error e => .error e
        | .ok st =>
          .ok { after := { v with storage_ := st, data_ := some new_data,
                                  capacity_ := new_capacity },
                thrown := false, deleted := none }

/-- The two member functions that shrink a container. -/
inductive shrink_call where
  | pop_back
  | clear
  deriving DecidableEq, Repr

/-- A run of `pop_back()` and `clear()` calls, in the order of the list. -/
def run_shrink_calls (v : vector T N) (calls : List shrink_call) : Except Fault (vector T N) :=
  match calls with
  | [] => .ok v
  | c :: rest =>
    match (match c with
      | .pop_back => v.pop_back
      | .clear => v.clear) with
    | .error e => .error e
    | .ok w => w.run_shrink_calls rest

/-- Example with `N = 8`: an empty container, in static mode. -/
def example_empty : vector Nat 8 := init

end vector

section buffer_lemmas

variable {T : Type}

theorem read_mid (p r : List (Option T)) (x : T) :
    read (p ++ some x :: r) p.length = .ok x := by
  have h : (p ++ some x :: r)[p.length]? = some (some x) := by
    induction p with
    | nil => simp
    | cons a p ih => simpa using ih
  simp only [read, h]

theorem set_mid (p r : List (Option T)) (s t : Option T) :
    (p ++ s :: r).set p.length t = p ++ t :: r := by
  induction p with
  | nil => rfl
  | cons a p ih => simp [ih]

theorem swap_loop_spec (xs : List T) :
    ∀ (ys : List T) (pa pb ra rb : List (Option T)), xs.length = ys.length →
      pa.length = pb.length →
      swap_loop (pa ++ xs.map some ++ ra) (pb ++ ys.map some ++ rb) pa.length xs.length
        = .ok (pa ++ ys.map some ++ ra, pb ++ xs.map some ++ rb) := by
  induction xs with
  | nil =>
    intro ys pa pb ra rb h _
    have : ys = [] := List.length_eq_zero.mp h.symm
    subst this
    simp [swap_loop]
  | cons x xs ih =>
    intro ys pa pb ra rb h hp
    cases ys with
    | nil => simp at h
    | cons y ys =>
      have hlen : xs.length = ys.length := by simpa using h
      have e1 : pa ++ List.map some (x :: xs) ++ ra = pa ++ some x :: (xs.map some ++ ra) := by simp
      have e2 : pb ++ List.map some (y :: ys) ++ rb = pb ++ some y :: (ys.map some ++ rb) := by simp
      have r2 : read (pb ++ some y :: (ys.map some ++ rb)) pa.length = .ok y := by
        rw [hp]; exact read_mid _ _ _
      have s2 : (pb ++ some y :: (ys.map some ++ rb)).set pa.length (some x)
          = pb ++ some x :: (ys.map some ++ rb) := by
        rw [hp]; exact set_mid _ _ _ _
      rw [e1, e2, List.length_cons, swap_loop, read_mid, r2]
      simp only [set_mid, s2]
      have := ih ys (pa ++ [some y]) (pb ++ [some x]) ra rb hlen (by simp [hp])
      simpa using this

theorem construct_loop_spec (xs : List T) :
    ∀ (ps rs pd hole rd : List (Option T)), hole.length = xs.length →
      construct_loop (ps ++ xs.map some ++ rs) ps.length (pd ++ hole ++ rd) pd.length xs.length
        = .ok (pd ++ xs.map some ++ rd) := by
  induction xs with
  | nil =>
    intro ps rs pd hole rd h
    have : hole = [] := List.length_eq_zero.mp h
    subst this
    simp [construct_loop]
  | cons x xs ih =>
    intro ps rs pd hole rd h
    cases hole with
    | nil => simp at h
    | cons s hole =>
      have hlen : hole.length = xs.length := by simpa using h
      have e1 : ps ++ List.map some (x :: xs) ++ rs = ps ++ some x :: (xs.map some ++ rs) := by simp
      have e2 : pd ++ s :: hole ++ rd = pd ++ s :: (hole ++ rd) := by simp
      have c : construct_at (pd ++ s :: (hole ++ rd)) pd.length x
          = .ok (pd ++ some x :: (hole ++ rd)) := by
        simp [construct_at, set_mid]
      rw [e1, e2, List.length_cons, construct_loop, read_mid]
      simp only [c]
      have := ih (ps ++ [some x]) rs (pd ++ [some x]) hole rd hlen
      simpa using this

theorem destroy_n_spec (xs : List T) :
    ∀ (p r : List (Option T)),
      destroy_n (p ++ xs.map some ++ r) p.length xs.length
        = .ok (p ++ List.replicate xs.length none ++ r) := by
  induction xs with
  | nil => intro p r; simp [destroy_n]
  | cons x xs ih =>
    intro p r
    have e1 : p ++ List.map some (x :: xs) ++ r = p ++ some x :: (xs.map some ++ r) := by simp
    rw [e1, List.length_cons, destroy_n, destroy_at, read_mid]
    simp only [set_mid]
    have := ih (p ++ [none]) r
    simpa [List.replicate_succ] using this


theorem swap_ranges_spec (xs ys : List T) (ra rb : List (Option T)) (n : Nat)
    (hx : xs.length = n) (hy : ys.length = n) :
    swap_ranges (xs.map some ++ ra) n (ys.map some ++ rb)
      = .ok (ys.map some ++ ra, xs.map some ++ rb) := by
  subst hx
  have := swap_loop_spec xs ys [] [] ra rb hy.symm rfl
  simpa [swap_ranges] using this

theorem uninitialized_move_spec (xs : List T) (ps rs pd rd : List (Option T)) (first last dfirst : Nat)
    (h1 : ps.length = first) (h2 : first + xs.length = last) (h3 : pd.length = dfirst) :
    uninitialized_move (ps ++ xs.map some ++ rs) first last
        (pd ++ List.replicate xs.length none ++ rd) dfirst
      = .ok (pd ++ xs.map some ++ rd) := by
  subst h1 h2 h3
  have := construct_loop_spec xs ps rs pd (List.replicate xs.length none) rd (by simp)
  simpa [uninitialized_move] using this

theorem uninitialized_copy_spec (xs : List T) (ps rs pd rd : List (Option T)) (first last dfirst : Nat)
    (h1 : ps.length = first) (h2 : first + xs.length = last) (h3 : pd.length = dfirst) :
    uninitialized_copy (ps ++ xs.map some ++ rs) first last
        (pd ++ List.replicate xs.length none ++ rd) dfirst
      = .ok (pd ++ xs.map some ++ rd) := by
  subst h1 h2 h3
  have := construct_loop_spec xs ps rs pd (List.replicate xs.length none) rd (by simp)
  simpa [uninitialized_copy] using this

theorem destroy_spec (xs : List T) (p r : List (Option T)) (first last : Nat)
    (h1 : p.length = first) (h2 : first + xs.length = last) :
    destroy (p ++ xs.map some ++ r) first last
      = .ok (p ++ List.replicate xs.length none ++ r) := by
  subst h1 h2
  have := destroy_n_spec xs p r
  simpa [destroy] using this

theorem construct_loop_overrun (xs : List T) :
    ∀ (ps rs pd hole : List (Option T)), hole.length < xs.length →
      construct_loop (ps ++ xs.map some ++ rs) ps.length (pd ++ hole) pd.length xs.length
        = .error .out_of_bounds := by
  induction xs with
  | nil => intro ps rs pd hole h; simp at h
  | cons x xs ih =>
    intro ps rs pd hole h
    have e1 : ps ++ List.map some (x :: xs) ++ rs = ps ++ some x :: (xs.map some ++ rs) := by simp
    rw [e1, List.length_cons, construct_loop, read_mid]
    cases hole with
    | nil => simp [construct_at]
    | cons s hole =>
      have c : construct_at (pd ++ s :: hole) pd.length x = .ok (pd ++ some x :: hole) := by
        simp [construct_at, set_mid]
      simp only [c]
      have := ih (ps ++ [some x]) rs (pd ++ [some x]) hole (by simpa using h)
      simpa using this

theorem construct_loop_shape (xs : List T) (r : List (Option T)) (m : Nat)
    (d : List (Option T))
    (h : construct_loop (xs.map some ++ r) 0 (List.replicate m none) 0 xs.length = .ok d) :
    d = xs.map some ++ List.replicate (m - xs.length) none ∧ xs.length ≤ m := by
  by_cases hm : xs.length ≤ m
  · have e : List.replicate m (none : Option T)
        = List.replicate xs.length none ++ List.replicate (m - xs.length) none := by
      rw [← List.replicate_add]; congr 1; omega
    have c := construct_loop_spec xs [] r [] (List.replicate xs.length none)
      (List.replicate (m - xs.length) none) (by simp)
    simp only [List.nil_append, List.length_nil] at c
    rw [e, c] at h
    exact ⟨(Except.ok.inj h).symm, hm⟩
  · have c := construct_loop_overrun xs [] r [] (List.replicate m none) (by simp; omega)
    simp only [List.nil_append, List.length_nil] at c
    rw [c] at h
    cases h

end buffer_lemmas

namespace vector

variable {T : Type} {N : Nat}

@[simp] theorem data_with_data (v : vector T N) (b : List (Option T)) :
    (v.with_data b).data = b := by
  unfold with_data data
  cases h : v.data_ <;> simp

@[simp] theorem size_with_data (v : vector T N) (b : List (Option T)) :
    (v.with_data b).size_ = v.size_ := by
  unfold with_data
  cases h : v.data_ <;> simp

@[simp] theorem capacity_with_data (v : vector T N) (b : List (Option T)) :
    (v.with_data b).capacity_ = v.capacity_ := by
  unfold with_data
  cases h : v.data_ <;> simp

@[simp] theorem static_with_data (v : vector T N) (b : List (Option T)) :
    (v.with_data b).is_using_static_buffer = v.is_using_static_buffer := by
  unfold with_data is_using_static_buffer
  cases h : v.data_ <;> simp [h]

theorem storage_with_data (v : vector T N) (b : List (Option T))
    (h : b.length = v.data.length) :
    (v.with_data b).storage_.length = v.storage_.length := by
  unfold with_data
  unfold data at h
  cases hd : v.data_ <;> simp [hd] at h ⊢
  exact h

theorem all_some (l : List (Option T)) (h : ∀ s ∈ l, s.isSome = true) :
    l = l.reduceOption.map some := by
  induction l with
  | nil => rfl
  | cons a l ih =>
    cases a with
    | none => simpa using h none (by simp)
    | some x =>
      have := ih (fun s hs => h s (List.mem_cons_of_mem _ hs))
      simp [List.reduceOption_cons_of_some, ← this]

theorem all_none (l : List (Option T)) (h : ∀ s ∈ l, s.isNone = true) :
    l = List.replicate l.length none := by
  induction l with
  | nil => rfl
  | cons a l ih =>
    cases a with
    | some x => simpa using h (some x) (by simp)
    | none =>
      have := ih (fun s hs => h s (List.mem_cons_of_mem _ hs))
      simp [List.replicate_succ, ← this]

theorem laid_of_invariant (v : vector T N) (h : v.ElementInvariant) :
    ∃ xs, xs.length = v.size_ ∧ v.Laid xs (v.data.length - v.size_) := by
  obtain ⟨hle, hl, hr⟩ := h
  refine ⟨(v.data.take v.size_).reduceOption, ?_, ?_⟩
  · have := congrArg List.length (all_some _ hl)
    simp at this
    omega
  · unfold Laid
    rw [← all_some _ hl]
    have := all_none _ hr
    simp only [List.length_drop] at this
    rw [← this, List.take_append_drop]

theorem invariant_of_laid (v : vector T N) (xs : List T) (k : Nat) (h : v.Laid xs k)
    (hs : v.size_ = xs.length) : v.ElementInvariant := by
  unfold Laid at h
  unfold ElementInvariant
  rw [h, hs]
  refine ⟨by simp, ?_, ?_⟩
  · intro s hs
    simp at hs
    obtain ⟨x, _, rfl⟩ := hs
    rfl
  · intro s hs
    simp at hs
    rw [hs.2]; rfl

theorem at_index_of_laid (v : vector T N) (xs : List T) (k : Nat) (h : v.Laid xs k)
    (i : Nat) (hi : i < xs.length) : v.at_index i = .ok (xs.get ⟨i, hi⟩) := by
  unfold Laid at h
  unfold at_index read
  rw [h, List.getElem?_append_left (by simpa using hi)]
  simp [hi]

theorem same_elements_of_laid (u w : vector T N) (xs : List T) (k l : Nat)
    (hu : u.Laid xs k) (hw : w.Laid xs l) (su : u.size_ = xs.length) (sw : w.size_ = xs.length) :
    u.same_elements w := by
  refine ⟨by simp [size, su, sw], ?_⟩
  intro i hi
  have hi' : i < xs.length := by simpa [size, sw] using hi
  exact ⟨_, at_index_of_laid w xs l hw i hi', at_index_of_laid u xs k hu i hi'⟩

theorem exchange_longer (x1 x2 ys : List T) (ka : Nat) (h : x1.length = ys.length) :
    swap_ranges ((x1 ++ x2).map some ++ List.replicate ka none) ys.length
        (ys.map some ++ List.replicate (x2.length + ka) none)
      = .ok (ys.map some ++ x2.map some ++ List.replicate ka none,
          x1.map some ++ List.replicate (x2.length + ka) none) ∧
    swap_ranges (ys.map some ++ List.replicate (x2.length + ka) none) ys.length
        ((x1 ++ x2).map some ++ List.replicate ka none)
      = .ok (x1.map some ++ List.replicate (x2.length + ka) none,
          ys.map some ++ x2.map some ++ List.replicate ka none) ∧
    uninitialized_move (ys.map some ++ x2.map some ++ List.replicate ka none) ys.length
        (x1 ++ x2).length (x1.map some ++ List.replicate (x2.length + ka) none) ys.length
      = .ok ((x1 ++ x2).map some ++ List.replicate ka none) ∧
    destroy (ys.map some ++ x2.map some ++ List.replicate ka none) ys.length (x1 ++ x2).length
      = .ok (ys.map some ++ List.replicate (x2.length + ka) none) := by
  have e : List.replicate (x2.length + ka) (none : Option T)
      = List.replicate x2.length none ++ List.replicate ka none := List.replicate_add _ _ _
  refine ⟨?_, ?_, ?_, ?_⟩
  · have := swap_ranges_spec x1 ys (x2.map some ++ List.replicate ka none)
      (List.replicate (x2.length + ka) none) ys.length h rfl
    simpa using this
  · have := swap_ranges_spec ys x1 (List.replicate (x2.length + ka) none)
      (x2.map some ++ List.replicate ka none) ys.length rfl h
    simpa using this
  · have := uninitialized_move_spec x2 (ys.map some) (List.replicate ka none) (x1.map some)
      (List.replicate ka none) ys.length (x1 ++ x2).length ys.length (by simp) (by simp [h])
      (by simp [h])
    rw [e]
    simpa using this
  · have := destroy_spec x2 (ys.map some) (List.replicate ka none) ys.length (x1 ++ x2).length
      (by simp) (by simp [h])
    rw [e]
    simpa using this

theorem swap_between_static_buffers_longer (A B : vector T N) (x1 x2 ys : List T) (ka : Nat)
    (h : x1.length = ys.length) (h2 : 0 < x2.length)
    (hA : A.Laid (x1 ++ x2) ka) (hB : B.Laid ys (x2.length + ka))
    (sA : A.size_ = (x1 ++ x2).length) (sB : B.size_ = ys.length) :
    swap_between_static_buffers A B
      = .ok (A.with_data (ys.map some ++ List.replicate (x2.length + ka) none),
          B.with_data ((x1 ++ x2).map some ++ List.replicate ka none)) ∧
    swap_between_static_buffers B A
      = .ok (B.with_data ((x1 ++ x2).map some ++ List.replicate ka none),
          A.with_data (ys.map some ++ List.replicate (x2.length + ka) none)) := by
  obtain ⟨e1, e1', e2, e3⟩ := exchange_longer x1 x2 ys ka h
  unfold Laid at hA hB
  have hlt : ys.length < (x1 ++ x2).length := by simp [h]; omega
  constructor
  · unfold swap_between_static_buffers
    rw [sA, sB, hA, hB, if_pos hlt, e1]
    simp only [e2, e3]
  · unfold swap_between_static_buffers
    rw [sA, sB, hA, hB, if_neg (by omega), if_pos hlt, e1']
    simp only [e2, e3]

theorem swap_between_static_buffers_equal (A B : vector T N) (xs ys : List T) (ka kb : Nat)
    (h : xs.length = ys.length)
    (hA : A.Laid xs ka) (hB : B.Laid ys kb)
    (sA : A.size_ = xs.length) (sB : B.size_ = ys.length) :
    swap_between_static_buffers A B
      = .ok (A.with_data (ys.map some ++ List.replicate ka none),
          B.with_data (xs.map some ++ List.replicate kb none)) := by
  unfold Laid at hA hB
  unfold swap_between_static_buffers
  rw [sA, sB, hA, hB, if_neg (by omega), if_neg (by omega),
    swap_ranges_spec xs ys _ _ xs.length rfl h.symm]

theorem swap_between_static_buffers_spec (A B : vector T N) (xs ys : List T) (ka kb : Nat)
    (hcap : xs.length + ka = ys.length + kb)
    (hA : A.Laid xs ka) (hB : B.Laid ys kb)
    (sA : A.size_ = xs.length) (sB : B.size_ = ys.length) :
    swap_between_static_buffers A B
      = .ok (A.with_data (ys.map some ++ List.replicate (xs.length + ka - ys.length) none),
          B.with_data (xs.map some ++ List.replicate (ys.length + kb - xs.length) none)) := by
  rcases Nat.lt_trichotomy ys.length xs.length with hlt | heq | hgt
  · have hx : xs = xs.take ys.length ++ xs.drop ys.length := (List.take_append_drop _ _).symm
    have l1 : (xs.take ys.length).length = ys.length := by simp; omega
    have l2 : (xs.drop ys.length).length = xs.length - ys.length := by simp
    have hkb : kb = (xs.drop ys.length).length + ka := by omega
    have := (swap_between_static_buffers_longer A B (xs.take ys.length) (xs.drop ys.length) ys ka
      l1 (by omega) (by rw [← hx]; exact hA) (by rw [← hkb]; exact hB)
      (by rw [← hx]; exact sA) sB).1
    rw [this, ← hx, l2, show xs.length - ys.length + ka = xs.length + ka - ys.length by omega,
      show ys.length + kb - xs.length = ka by omega]
  · have := swap_between_static_buffers_equal A B xs ys ka kb heq.symm hA hB sA sB
    rw [this, show xs.length + ka - ys.length = ka by omega,
      show ys.length + kb - xs.length = kb by omega]
  · have hy : ys = ys.take xs.length ++ ys.drop xs.length := (List.take_append_drop _ _).symm
    have l1 : (ys.take xs.length).length = xs.length := by simp; omega
    have l2 : (ys.drop xs.length).length = ys.length - xs.length := by simp
    have hka : ka = (ys.drop xs.length).length + kb := by omega
    have := (swap_between_static_buffers_longer B A (ys.take xs.length) (ys.drop xs.length) xs kb
      l1 (by omega) (by rw [← hy]; exact hB) (by rw [← hka]; exact hA)
      (by rw [← hy]; exact sB) sA).2
    rw [this, ← hy, l2, show ys.length - xs.length + kb = ys.length + kb - xs.length by omega,
      show xs.length + ka - ys.length = kb by omega]

theorem static_data (v : vector T N) (h : v.is_using_static_buffer = true) :
    v.data = v.storage_ := by
  unfold is_using_static_buffer at h
  unfold data
  cases hd : v.data_ with
  | none => rfl
  | some b => simp [hd] at h

theorem data_resize (v : vector T N) (s c : Nat) :
    ({ v with size_ := s, capacity_ := c } : vector T N).data = v.data := rfl

theorem storage_with_data_static (v : vector T N) (b : List (Option T))
    (h : v.is_using_static_buffer = true) (hb : b.length = v.data.length) :
    (v.with_data b).storage_.length = v.data.length := by
  rw [storage_with_data v b hb, static_data v h]

@[simp] theorem with_data_with_data (v : vector T N) (a b : List (Option T)) :
    (v.with_data a).with_data b = v.with_data b := by
  unfold with_data
  cases h : v.data_ <;> simp

variable [layout T N]

theorem element_bytes_pos : 0 < element_bytes T N := layout.sizeof_pos

theorem le_bytes (n : Nat) : n ≤ element_bytes T N * n :=
  Nat.le_mul_of_pos_left n element_bytes_pos

theorem allocate_eq (n : Nat) (h : element_bytes T N * n < size_t_range) :
    allocate T N n = List.replicate n none := by
  unfold allocate
  rw [Nat.mod_eq_of_lt h, Nat.mul_div_cancel_left n element_bytes_pos]

theorem bytes_mono {m n : Nat} (h : m ≤ n) : element_bytes T N * m ≤ element_bytes T N * n :=
  Nat.mul_le_mul_left _ h

theorem range_eq_two_limits : size_t_range = 2 * object_size_limit := by decide

theorem double_bytes (n : Nat) :
    element_bytes T N * (n * 2) = 2 * (element_bytes T N * n) := by
  rw [Nat.mul_comm n 2, Nat.mul_left_comm]

theorem valid_of_laid (v : vector T N) (xs : List T) (k : Nat) (h : v.Laid xs k)
    (hs : v.size_ = xs.length) (hst : v.storage_.length = N) (hc : v.capacity_ = xs.length + k)
    (ha : v.Addressable) :
    v.Valid := by
  refine ⟨hst, ?_, invariant_of_laid v xs k h hs, ha⟩
  unfold CapacityInvariant
  unfold Laid at h
  rw [h, hc]
  simp

theorem reserve_grow (v : vector T N) (xs : List T) (k n : Nat) (h : v.Laid xs k)
    (hs : v.size_ = xs.length) (hn : v.capacity_ < n) (hle : xs.length ≤ n)
    (hb : element_bytes T N * n < size_t_range) :
    ∃ w, v.reserve n = .ok w ∧ w.data_ = some (xs.map some ++ List.replicate (n - xs.length) none) ∧
      w.size_ = v.size_ ∧ w.capacity_ = n ∧ w.storage_.length = v.storage_.length := by
  unfold Laid at h
  have e : List.replicate n (none : Option T)
      = List.replicate xs.length none ++ List.replicate (n - xs.length) none := by
    rw [← List.replicate_add]; congr 1; omega
  have c := construct_loop_spec xs [] (List.replicate k none) [] (List.replicate xs.length none)
    (List.replicate (n - xs.length) none) (by simp)
  simp only [List.nil_append, List.length_nil] at c
  unfold reserve
  rw [if_neg (by simp [capacity]; omega), allocate_eq n hb]
  simp only [size, h, hs, e, c]
  cases hst : v.is_using_static_buffer with
  | false => exact ⟨_, rfl, rfl, rfl, rfl, rfl⟩
  | true =>
    have hd := static_data v hst
    rw [h] at hd
    have d := destroy_n_spec xs [] (List.replicate k none)
    simp only [List.nil_append, List.length_nil] at d
    simp only [Bool.not_true, Bool.false_eq_true, if_false, ← hd, d]
    refine ⟨_, rfl, rfl, rfl, rfl, ?_⟩
    simp

theorem construct_at_first_raw (xs : List T) (k : Nat) (x : T) :
    construct_at (xs.map some ++ List.replicate (k + 1) none) xs.length x
      = .ok ((xs ++ [x]).map some ++ List.replicate k none) := by
  have := set_mid (xs.map some) (List.replicate k none) none (some x)
  simp only [List.length_map] at this
  simp [construct_at, List.replicate_succ, this]

theorem push_back_spec (v : vector T N) (xs : List T) (k : Nat) (x : T) (h : v.Laid xs k)
    (hs : v.size_ = xs.length) (hc : v.capacity_ = xs.length + k) (hpos : 0 < v.capacity_)
    (hb : v.size_ = v.capacity_ → element_bytes T N * (v.capacity_ * 2) < size_t_range) :
    ∃ w l, v.push_back (.outside x) = .ok w ∧ w.Laid (xs ++ [x]) l ∧ w.size_ = xs.length + 1 ∧
      w.capacity_ = xs.length + 1 + l ∧ w.storage_.length = v.storage_.length ∧
      v.capacity_ ≤ w.capacity_ := by
  unfold push_back
  by_cases hfull : v.size = v.capacity
  · have hk : k = 0 := by simp [size, capacity] at hfull; omega
    have hb' := hb hfull
    have hmod : v.capacity * 2 % size_t_range = v.capacity * 2 :=
      Nat.mod_eq_of_lt (lt_of_le_of_lt (le_bytes _) hb')
    obtain ⟨w, hw, wd, wsz, wc, wst⟩ := reserve_grow v xs k (v.capacity * 2) h hs
      (by simp [capacity]; omega) (by simp [capacity]; omega) hb'
    simp only [hmod]
    rw [if_pos hfull, hw]
    have hdata : w.data = xs.map some ++ List.replicate (v.capacity * 2 - xs.length - 1 + 1) none := by
      unfold data; rw [wd]; simp [capacity]; omega
    simp only [referent, size, hdata, wsz, hs, construct_at_first_raw]
    refine ⟨_, v.capacity * 2 - xs.length - 1, rfl, ?_, rfl, ?_, ?_, ?_⟩
    · exact data_with_data w _
    · simp [wc, capacity]; omega
    · simp [with_data, wd, wst]
    · simp [wc, capacity]; omega
  · have hk : k = k - 1 + 1 := by simp [size, capacity] at hfull; omega
    have hdata : v.data = xs.map some ++ List.replicate (k - 1 + 1) none := by
      rw [← hk]; exact h
    simp only []
    rw [if_neg hfull]
    simp only [referent, size, hdata, hs, construct_at_first_raw]
    refine ⟨_, k - 1, rfl, ?_, rfl, ?_, ?_, ?_⟩
    · exact data_with_data v _
    · simp; omega
    · exact storage_with_data v _ (by rw [hdata]; simp)
    · simp

theorem push_loop_spec (ys : List T) :
    ∀ (dyn st : vector T N) (xs : List T) (k : Nat) (pre tail : List (Option T)),
      dyn.data = pre ++ ys.map some ++ tail → st.Laid xs k → st.size_ = xs.length →
      st.capacity_ = xs.length + k → 0 < st.capacity_ →
      element_bytes T N * ((xs.length + ys.length) * 2) ≤ size_t_range →
      ∃ w l, push_loop dyn pre.length ys.length st = .ok w ∧ w.Laid (xs ++ ys) l ∧
        w.size_ = xs.length + ys.length ∧ w.capacity_ = xs.length + ys.length + l ∧
        w.storage_.length = st.storage_.length ∧ st.capacity_ ≤ w.capacity_ := by
  induction ys with
  | nil =>
    intro dyn st xs k pre tail _ hl hs hc _ _
    exact ⟨st, k, rfl, by simpa using hl, by simpa using hs, by simpa using hc, rfl, le_refl _⟩
  | cons y ys ih =>
    intro dyn st xs k pre tail hd hl hs hc hpos hb
    have hd' : dyn.data = pre ++ some y :: (ys.map some ++ tail) := by simpa using hd
    have hr : dyn.at_index pre.length = .ok y := by
      unfold at_index; rw [hd']; exact read_mid _ _ _
    have hfit : st.size_ = st.capacity_ →
        element_bytes T N * (st.capacity_ * 2) < size_t_range := by
      intro hfull
      have h1 : st.capacity_ * 2 + 2 ≤ (xs.length + (y :: ys).length) * 2 := by
        simp only [List.length_cons]; omega
      have h2 := bytes_mono (T := T) (N := N) h1
      have h3 := element_bytes_pos (T := T) (N := N)
      rw [Nat.mul_add] at h2
      have h4 : 0 < element_bytes T N * 2 := by omega
      omega
    obtain ⟨s1, l1, hp, hl1, hs1, hc1, hst1, hle1⟩ :=
      push_back_spec st xs k y hl hs hc hpos hfit
    obtain ⟨w, l, hw, hlw, hsw, hcw, hstw, hlew⟩ := ih dyn s1 (xs ++ [y]) l1 (pre ++ [some y]) tail
      (by simpa using hd) hl1 (by simpa using hs1) (by simpa using hc1) (by omega)
      (by simpa [Nat.add_assoc, Nat.add_comm 1] using hb)
    refine ⟨w, l, ?_, by simpa using hlw, ?_, ?_, hstw.trans hst1, by omega⟩
    · rw [List.length_cons, push_loop, hr]
      simp only [hp]
      simpa using hw
    · simp at hsw ⊢; omega
    · simp at hcw ⊢; omega

theorem swap_dynamic_with_static_spec (dyn sta : vector T N) (ds ss : List T) (kd ks : Nat)
    (hd : dyn.Laid ds kd) (hs : sta.Laid ss ks) (sd : dyn.size_ = ds.length)
    (ssz : sta.size_ = ss.length) (hc : sta.capacity_ = ss.length + ks) (hpos : 0 < sta.capacity_)
    (hle : ss.length ≤ ds.length)
    (hb : element_bytes T N * (ds.length * 2) ≤ size_t_range) :
    ∃ sta' l, swap_dynamic_with_static dyn sta
        = .ok (dyn.with_data (ss.map some ++ List.replicate (ds.length - ss.length + kd) none), sta') ∧
      sta'.Laid ds l ∧ sta'.size_ = ss.length ∧ sta'.capacity_ = ds.length + l ∧
      sta'.storage_.length = sta.storage_.length ∧ sta.capacity_ ≤ sta'.capacity_ := by
  have hx : ds = ds.take ss.length ++ ds.drop ss.length := (List.take_append_drop _ _).symm
  have l1 : (ds.take ss.length).length = ss.length := by simp; omega
  have l2 : (ds.drop ss.length).length = ds.length - ss.length := by simp
  generalize ds.take ss.length = d1 at hx l1
  generalize ds.drop ss.length = d2 at hx l2
  subst hx
  unfold Laid at hd hs
  have e1 := swap_ranges_spec ss d1 (List.replicate ks none) (d2.map some ++ List.replicate kd none)
    ss.length rfl l1
  have hd1 : dyn.data = d1.map some ++ (d2.map some ++ List.replicate kd none) := by
    rw [hd]; simp
  obtain ⟨w, l, hw, hlw, hsw, hcw, hstw, hlew⟩ := push_loop_spec d2
    (dyn.with_data (ss.map some ++ (d2.map some ++ List.replicate kd none)))
    (sta.with_data (d1.map some ++ List.replicate ks none)) d1 ks (ss.map some)
    (List.replicate kd none) (by simp) (data_with_data _ _) (by simp [ssz, l1])
    (by simp [hc, l1]) (by simpa using hpos) (by simpa using hb)
  have e3 := destroy_spec d2 (ss.map some) (List.replicate kd none) ss.length (d1 ++ d2).length
    (by simp) (by simp [l1])
  refine ⟨{ w with size_ := ss.length }, l, ?_, hlw, rfl, ?_, ?_, ?_⟩
  · unfold swap_dynamic_with_static
    rw [hs, hd1, size, ssz, e1]
    simp only [size, size_with_data, sd, ssz, data_with_data]
    have hn : (d1 ++ d2).length - ss.length = d2.length := by simp [l1]
    simp only [List.length_map] at hw
    rw [hn, hw]
    simp only [← List.append_assoc, e3, with_data_with_data]
    rw [List.replicate_add, l2]
    simp
  · simp at hcw ⊢; omega
  · simpa using hstw.trans (storage_with_data sta _ (by rw [hs]; simp [l1]))
  · simp at hlew ⊢; omega

theorem swap_mixed_spec (S D : vector T N) (hN : 0 < N) (hS : S.Valid) (hD : D.ElementInvariant)
    (sS : S.is_using_static_buffer = true) (sD : D.is_using_static_buffer = false)
    (hle : S.size_ ≤ D.size_) (hb : element_bytes T N * (D.size_ * 2) ≤ size_t_range) :
    ∃ S' D', S.swap D = .ok (S', D') ∧ D.swap S = .ok (D', S') ∧
      S'.same_elements D ∧ D'.same_elements S ∧ S'.ElementInvariant ∧ D'.ElementInvariant ∧
      D'.is_using_static_buffer = false ∧ D'.data.length = D.data.length ∧
      S'.capacity_ = D.capacity_ ∧ S.capacity_ ≤ D'.capacity_ ∧ S'.storage_.length = N := by
  obtain ⟨stS, capS, invS, -⟩ := hS
  obtain ⟨ss, ls, hs⟩ := laid_of_invariant S invS
  obtain ⟨ds, ld, hd⟩ := laid_of_invariant D hD
  have dS : S.data.length = N := by rw [static_data S sS, stS]
  unfold CapacityInvariant at capS
  have leS := invS.1
  have leD := hD.1
  obtain ⟨sta', l, hsw, hl, hsz, hcap, hst, hcle⟩ := swap_dynamic_with_static_spec D S ds ss _ _
    hd hs ld.symm ls.symm (by omega) (by omega) (by omega) (by rw [ld]; exact hb)
  refine ⟨{ sta' with size_ := D.size_, capacity_ := D.capacity_ },
    { D.with_data (ss.map some ++ List.replicate (ds.length - ss.length + (D.data.length - D.size_)) none)
        with size_ := sta'.size_, capacity_ := sta'.capacity_ }, ?_, ?_, ?_, ?_, ?_, ?_, ?_, ?_, rfl,
    hcle, hst.trans stS⟩
  · unfold swap
    simp only [sS, sD, if_true, hsw, Bool.false_eq_true, if_false, size_with_data,
      capacity_with_data]
  · unfold swap
    simp only [sS, sD, if_true, hsw, Bool.false_eq_true, if_false, size_with_data,
      capacity_with_data]
  · exact same_elements_of_laid _ D ds l _ hl hd ld.symm ld.symm
  · exact same_elements_of_laid _ S ss _ _ (data_with_data D _) hs hsz ls.symm
  · exact invariant_of_laid _ ds l hl ld.symm
  · exact invariant_of_laid _ ss _ (data_with_data D _) hsz
  · exact (static_with_data D _).trans sD
  · show (D.with_data _).data.length = _
    rw [data_with_data]
    simp
    omega

theorem swap_static_spec (A B : vector T N) (hA : A.Valid) (hB : B.Valid)
    (sA : A.is_using_static_buffer = true) (sB : B.is_using_static_buffer = true) :
    ∃ A' B', A.swap B = .ok (A', B') ∧ A'.same_elements B ∧ B'.same_elements A ∧
      A'.is_using_static_buffer = true ∧ B'.is_using_static_buffer = true ∧
      A'.capacity = N ∧ B'.capacity = N ∧ A'.Valid ∧ B'.Valid := by
  obtain ⟨stA, capA, invA, adA⟩ := hA
  obtain ⟨stB, capB, invB, adB⟩ := hB
  obtain ⟨xs, lx, hx⟩ := laid_of_invariant A invA
  obtain ⟨ys, ly, hy⟩ := laid_of_invariant B invB
  have dA : A.data.length = N := by rw [static_data A sA, stA]
  have dB : B.data.length = N := by rw [static_data B sB, stB]
  unfold CapacityInvariant at capA capB
  have leA := invA.1
  have leB := invB.1
  have key := swap_between_static_buffers_spec A B xs ys _ _ (by omega) hx hy lx.symm ly.symm
  unfold swap
  simp only [sA, sB, if_true, key]
  refine ⟨_, _, rfl, ?_, ?_, ?_, ?_, ?_, ?_, ?_, ?_⟩
  · exact same_elements_of_laid _ B ys _ _ (by simp [Laid, data_resize]; rfl) hy (by simp [ly]) ly.symm
  · exact same_elements_of_laid _ A xs _ _ (by simp [Laid, data_resize]; rfl) hx (by simp [lx]) lx.symm
  · exact (static_with_data A _).trans sA
  · exact (static_with_data B _).trans sB
  · simp [capacity]; omega
  · simp [capacity]; omega
  · refine valid_of_laid _ ys (xs.length + (A.data.length - A.size_) - ys.length) ?_ ?_ ?_ ?_ ?_
    · exact data_with_data A _
    · simp [ly]
    · exact (storage_with_data_static A _ sA (by simp; omega)).trans dA
    · simp; omega
    · simpa [Addressable] using adB
  · refine valid_of_laid _ xs (ys.length + (B.data.length - B.size_) - xs.length) ?_ ?_ ?_ ?_ ?_
    · exact data_with_data B _
    · simp [lx]
    · exact (storage_with_data_static B _ sB (by simp; omega)).trans dB
    · simp; omega
    · simpa [Addressable] using adA

theorem init_valid : (init : vector T N).Valid := by
  refine valid_of_laid _ [] N ?_ rfl ?_ ?_ ?_
  · simp [Laid, init, data]
  · simp [init]
  · simp [init]
  · exact layout.inline_fits

theorem copy_construct_spec (C : vector T N) (xs : List T) (k : Nat) (h : C.Laid xs k)
    (hs : C.size_ = xs.length) (hc : C.capacity_ = xs.length + k)
    (hb : element_bytes T N * C.capacity_ < size_t_range) :
    ∃ C2 l, copy_construct C = .ok C2 ∧ C2.Laid xs l ∧ C2.size_ = xs.length ∧
      C2.capacity_ = C.capacity_ ∧ C2.storage_.length = N ∧
      C2.is_using_static_buffer = decide (xs.length ≤ N) ∧ C2.data.length = xs.length + l := by
  unfold Laid at h
  have c := fun rd => uninitialized_copy_spec xs [] (List.replicate k none) [] rd 0 xs.length 0
    rfl (by simp) rfl
  simp only [List.nil_append] at c
  unfold copy_construct
  by_cases hbig : C.size > N
  · have e : allocate T N C.capacity
        = List.replicate xs.length none ++ List.replicate k none := by
      rw [capacity, allocate_eq _ hb, ← List.replicate_add, hc]
    simp only [if_pos hbig, data, init, e, c]
    simp only [← data.eq_def, h, size, hs, c]
    refine ⟨_, k, rfl, rfl, rfl, rfl, ?_, ?_, ?_⟩
    · simp [with_data]
    · simp [size, hs] at hbig
      simp [is_using_static_buffer, with_data]
      omega
    · simp [with_data, data]
  · have hle : xs.length ≤ N := by simp [size, hs] at hbig; exact hbig
    have e : List.replicate N (none : Option T)
        = List.replicate xs.length none ++ List.replicate (N - xs.length) none := by
      rw [← List.replicate_add]; congr 1; omega
    simp only [if_neg hbig, data, init, e]
    simp only [← data.eq_def, h, size, hs, c]
    refine ⟨_, N - xs.length, rfl, rfl, rfl, rfl, ?_, ?_, ?_⟩
    · simp [with_data]; omega
    · simp [is_using_static_buffer, with_data, hle]
    · simp [with_data, data]

theorem swap_dynamic_spec (A B : vector T N) (hA : A.ElementInvariant) (hB : B.ElementInvariant)
    (sA : A.is_using_static_buffer = false) (sB : B.is_using_static_buffer = false) :
    A.swap B = .ok ({ A with data_ := B.data_, size_ := B.size_, capacity_ := B.capacity_ },
        { B with data_ := A.data_, size_ := A.size_, capacity_ := A.capacity_ }) ∧
      ({ A with data_ := B.data_, size_ := B.size_, capacity_ := B.capacity_ } :
        vector T N).same_elements B ∧
      ({ B with data_ := A.data_, size_ := A.size_, capacity_ := A.capacity_ } :
        vector T N).same_elements A := by
  obtain ⟨xs, lx, hx⟩ := laid_of_invariant A hA
  obtain ⟨ys, ly, hy⟩ := laid_of_invariant B hB
  have dA : ∃ a, A.data_ = some a := by
    cases h : A.data_ with
    | none => simp [is_using_static_buffer, h] at sA
    | some a => exact ⟨a, rfl⟩
  have dB : ∃ b, B.data_ = some b := by
    cases h : B.data_ with
    | none => simp [is_using_static_buffer, h] at sB
    | some b => exact ⟨b, rfl⟩
  obtain ⟨a, ha⟩ := dA
  obtain ⟨b, hb⟩ := dB
  refine ⟨?_, ?_, ?_⟩
  · unfold swap
    simp only [sA, sB, Bool.false_eq_true, if_false]
  · refine same_elements_of_laid _ B ys (B.data.length - B.size_) _ ?_ hy ly.symm ly.symm
    unfold Laid at hy ⊢
    rw [← hy]
    simp [data, hb]
  · refine same_elements_of_laid _ A xs (A.data.length - A.size_) _ ?_ hx lx.symm lx.symm
    unfold Laid at hx ⊢
    rw [← hx]
    simp [data, ha]

end vector

namespace vector

variable {T : Type} {N : Nat}

theorem pop_back_empty (v : vector T N) (h : v.size_ = 0) : v.pop_back = .ok v := by
  unfold pop_back
  simp [size, h]

theorem pop_back_laid (v : vector T N) (xs : List T) (x : T) (k : Nat)
    (h : v.Laid (xs ++ [x]) k) (hs : v.size_ = xs.length + 1) :
    ∃ w, v.pop_back = .ok w ∧ w.Laid xs (k + 1) ∧ w.size_ = xs.length ∧
      w.capacity_ = v.capacity_ ∧ w.is_using_static_buffer = v.is_using_static_buffer ∧
      w.storage_.length = v.storage_.length := by
  unfold Laid at h
  have hd : v.data = xs.map some ++ some x :: List.replicate k none := by
    rw [h]; simp
  have hr := read_mid (xs.map some) (List.replicate k none) x
  have hset := set_mid (xs.map some) (List.replicate k none) (some x) none
  simp only [List.length_map] at hr hset
  unfold pop_back
  rw [if_pos (by simp [size, hs])]
  simp only [hs, Nat.add_sub_cancel, destroy_at, hd, hr, hset]
  refine ⟨_, rfl, ?_, rfl, capacity_with_data v _, static_with_data v _, ?_⟩
  · show (v.with_data _).data = _
    rw [data_with_data]
    simp [List.replicate_succ]
  · exact storage_with_data v _ (by rw [hd]; simp)

theorem clear_laid (v : vector T N) (xs : List T) (k : Nat) (h : v.Laid xs k)
    (hs : v.size_ = xs.length) :
    ∃ w, v.clear = .ok w ∧ w.Laid [] (xs.length + k) ∧ w.size_ = 0 ∧
      w.capacity_ = v.capacity_ ∧ w.is_using_static_buffer = v.is_using_static_buffer ∧
      w.storage_.length = v.storage_.length := by
  unfold Laid at h
  have hd := destroy_n_spec xs [] (List.replicate k none)
  simp only [List.nil_append, List.length_nil] at hd
  unfold clear
  simp only [size, hs, h, hd]
  refine ⟨_, rfl, ?_, rfl, capacity_with_data v _, static_with_data v _, ?_⟩
  · show (v.with_data _).data = _
    rw [data_with_data]
    simp only [List.map_nil, List.nil_append, List.replicate_add]
  · exact storage_with_data v _ (by rw [h]; simp)

theorem at_index_of_laid_some (v : vector T N) (xs : List T) (k : Nat) (h : v.Laid xs k)
    (i : Nat) (y : T) (hy : xs[i]? = some y) : v.at_index i = .ok y := by
  obtain ⟨hi, rfl⟩ := List.getElem?_eq_some_iff.mp hy
  exact at_index_of_laid v xs k h i hi

theorem at_index_of_laid_exists (v : vector T N) (xs : List T) (k : Nat) (h : v.Laid xs k)
    (i : Nat) (hi : i < xs.length) : ∃ y, xs[i]? = some y ∧ v.at_index i = .ok y :=
  ⟨xs.get ⟨i, hi⟩, by simp [hi], at_index_of_laid v xs k h i hi⟩

theorem dynamic_of_data (v : vector T N) (b : List (Option T)) (h : v.data_ = some b) :
    v.is_using_static_buffer = false ∧ v.data = b := by
  unfold is_using_static_buffer data
  simp [h]

end vector

namespace vector

variable {T : Type} {N : Nat} [layout T N]

theorem push_back_not_full (v : vector T N) (xs : List T) (k : Nat) (x : T)
    (h : v.Laid xs (k + 1)) (hs : v.size_ = xs.length) (hc : v.capacity_ = xs.length + (k + 1)) :
    ∃ w, v.push_back (.outside x) = .ok w ∧ w.Laid (xs ++ [x]) k ∧ w.size_ = xs.length + 1 ∧
      w.capacity_ = v.capacity_ ∧ w.is_using_static_buffer = v.is_using_static_buffer ∧
      w.storage_.length = v.storage_.length := by
  have h' := h
  unfold Laid at h
  unfold push_back
  simp only []
  rw [if_neg (by simp [size, capacity]; omega)]
  simp only [referent, size, h, hs, construct_at_first_raw]
  refine ⟨_, rfl, data_with_data v _, rfl, capacity_with_data v _, static_with_data v _, ?_⟩
  exact storage_with_data v _ (by rw [h]; simp)

theorem push_back_full (v : vector T N) (xs : List T) (x : T)
    (h : v.Laid xs 0) (hs : v.size_ = xs.length) (hc : v.capacity_ = xs.length)
    (hpos : 0 < v.capacity_) (hb : element_bytes T N * (v.capacity_ * 2) < size_t_range) :
    ∃ w, v.push_back (.outside x) = .ok w ∧
      w.data_ = some ((xs ++ [x]).map some ++ List.replicate (xs.length - 1) none) ∧
      w.size_ = xs.length + 1 ∧ w.capacity_ = 2 * xs.length ∧
      w.storage_.length = v.storage_.length := by
  obtain ⟨r, hr, rd, rsz, rc, rst⟩ := reserve_grow v xs 0 (v.capacity * 2) h hs
    (by simp [capacity]; omega) (by simp [capacity]; omega) hb
  have hdata : r.data = xs.map some ++ List.replicate (xs.length - 1 + 1) none := by
    unfold data; rw [rd]; simp [capacity, hc]; omega
  have hmod : v.capacity * 2 % size_t_range = v.capacity * 2 :=
    Nat.mod_eq_of_lt (lt_of_le_of_lt (le_bytes _) hb)
  unfold push_back
  simp only [hmod]
  rw [if_pos (by simp [size, capacity]; omega), hr]
  simp only [referent, size, hdata, rsz, hs, construct_at_first_raw]
  refine ⟨_, rfl, ?_, rfl, ?_, ?_⟩
  · simp [with_data, rd]
  · simp [rc, capacity, hc]; omega
  · simp [with_data, rd, rst]

theorem push_all_within (vs : List T) :
    ∀ (v : vector T N) (xs : List T) (k : Nat), v.Laid xs k → v.size_ = xs.length →
      v.capacity_ = xs.length + k → vs.length ≤ k →
      ∃ w, v.push_all vs = .ok w ∧ w.Laid (xs ++ vs) (k - vs.length) ∧
        w.size_ = xs.length + vs.length ∧ w.capacity_ = v.capacity_ ∧
        w.is_using_static_buffer = v.is_using_static_buffer ∧
        w.storage_.length = v.storage_.length := by
  induction vs with
  | nil =>
    intro v xs k h hs hc _
    exact ⟨v, rfl, by simpa using h, by simpa using hs, rfl, rfl, rfl⟩
  | cons y vs ih =>
    intro v xs k h hs hc hle
    simp only [List.length_cons] at hle
    obtain ⟨j, rfl⟩ : ∃ j, k = j + 1 := ⟨k - 1, by omega⟩
    obtain ⟨w1, hp, hl1, hs1, hc1, hm1, hst1⟩ := push_back_not_full v xs j y h hs hc
    obtain ⟨w, hw, hl, hsz, hcw, hm, hst⟩ := ih w1 (xs ++ [y]) j hl1 (by simpa using hs1)
      (by simp [hc1, hc]; omega) (by omega)
    refine ⟨w, ?_, ?_, ?_, hcw.trans hc1, hm.trans hm1, hst.trans hst1⟩
    · rw [push_all, hp]; exact hw
    · simpa using hl
    · simp at hsz ⊢; omega

theorem push_all_spec (vs : List T) :
    ∀ (v : vector T N) (xs : List T) (k : Nat), v.Laid xs k → v.size_ = xs.length →
      v.capacity_ = xs.length + k → 0 < v.capacity_ →
      element_bytes T N * ((xs.length + vs.length) * 2) ≤ size_t_range →
      ∃ w l, v.push_all vs = .ok w ∧ w.Laid (xs ++ vs) l ∧ w.size_ = xs.length + vs.length ∧
        w.capacity_ = xs.length + vs.length + l ∧ w.storage_.length = v.storage_.length ∧
        v.capacity_ ≤ w.capacity_ := by
  induction vs with
  | nil =>
    intro v xs k h hs hc _ _
    exact ⟨v, k, rfl, by simpa using h, by simpa using hs, by simpa using hc, rfl, le_refl _⟩
  | cons y vs ih =>
    intro v xs k h hs hc hpos hb
    have hfit : v.size_ = v.capacity_ →
        element_bytes T N * (v.capacity_ * 2) < size_t_range := by
      intro hfull
      have h1 : v.capacity_ * 2 + 2 ≤ (xs.length + (y :: vs).length) * 2 := by
        simp only [List.length_cons]; omega
      have h2 := bytes_mono (T := T) (N := N) h1
      have h3 := element_bytes_pos (T := T) (N := N)
      rw [Nat.mul_add] at h2
      have h4 : 0 < element_bytes T N * 2 := by omega
      omega
    obtain ⟨w1, l1, hp, hl1, hs1, hc1, hst1, hle1⟩ := push_back_spec v xs k y h hs hc hpos hfit
    obtain ⟨w, l, hw, hl, hsz, hcw, hst, hle⟩ := ih w1 (xs ++ [y]) l1 hl1 (by simpa using hs1)
      (by simpa using hc1) (by omega) (by simpa [Nat.add_assoc, Nat.add_comm 1] using hb)
    refine ⟨w, l, ?_, by simpa using hl, ?_, ?_, hst.trans hst1, by omega⟩
    · rw [push_all, hp]; exact hw
    · simp at hsz ⊢; omega
    · simp at hcw ⊢; omega

theorem relocate_loop_fail (ctor_ok : Nat → Bool) (x2 : List T) :
    ∀ (x1 : List T) (pd : List (Option T)) (y : T) (x3 : List T) (r : List (Option T)) (q : Nat),
      pd.length = x1.length →
      (∀ j, x1.length ≤ j → j < x1.length + x2.length → ctor_ok j = true) →
      ctor_ok (x1.length + x2.length) = false →
      relocate_loop ctor_ok ((x1 ++ x2 ++ y :: x3).map some ++ r)
          (pd ++ List.replicate (x2.length + q) none) x1.length (x2.length + 1 + x3.length)
        = .ok (pd ++ x2.map some ++ List.replicate q none, some (x1.length + x2.length)) := by
  induction x2 with
  | nil =>
    intro x1 pd y x3 r q _ _ hfail
    have hsrc : (x1 ++ [] ++ y :: x3).map some ++ r
        = x1.map some ++ some y :: (x3.map some ++ r) := by simp
    have hr := read_mid (x1.map some) (x3.map some ++ r) y
    simp only [List.length_map] at hr
    simp only [List.length_nil, Nat.add_zero, Nat.zero_add] at hfail ⊢
    rw [hsrc, Nat.add_comm 1, relocate_loop, hr]
    simp [hfail]
  | cons z x2 ih =>
    intro x1 pd y x3 r q hpd hok hfail
    have hsrc : (x1 ++ z :: x2 ++ y :: x3).map some ++ r
        = x1.map some ++ some z :: ((x2 ++ y :: x3).map some ++ r) := by simp
    have hr := read_mid (x1.map some) ((x2 ++ y :: x3).map some ++ r) z
    simp only [List.length_map] at hr
    have hz : ctor_ok x1.length = true := hok _ (le_refl _) (by simp)
    have hdst : pd ++ List.replicate ((z :: x2).length + q) (none : Option T)
        = pd ++ none :: List.replicate (x2.length + q) none := by
      simp [List.length_cons, List.replicate_succ, Nat.add_right_comm]
    have hc : construct_at (pd ++ none :: List.replicate (x2.length + q) (none : Option T))
        x1.length z = .ok (pd ++ some z :: List.replicate (x2.length + q) none) := by
      rw [← hpd]
      simp [construct_at, set_mid]
    have hn : (z :: x2).length + 1 + x3.length = (x2.length + 1 + x3.length) + 1 := by
      simp; omega
    rw [hsrc, hdst, hn, relocate_loop, hr]
    simp only [hz, if_true, hc]
    have := ih (x1 ++ [z]) (pd ++ [some z]) y x3 r q (by simp [hpd])
      (fun j h1 h2 => hok j (by simp at h1; omega) (by simp at h2 ⊢; omega))
      (by simpa [Nat.add_assoc, Nat.add_comm 1] using hfail)
    simp only [List.length_append, List.length_singleton, List.append_assoc,
      List.singleton_append] at this
    have hsrc' : (x1 ++ (z :: x2 ++ y :: x3)).map some ++ r
        = x1.map some ++ some z :: ((x2 ++ y :: x3).map some ++ r) := by simp
    rw [hsrc'] at this
    rw [this]
    have e : x1.length + 1 + x2.length = x1.length + (z :: x2).length := by
      simp only [List.length_cons]; omega
    rw [e]
    simp

theorem relocate_loop_ok (ctor_ok : Nat → Bool) (hok : ∀ j, ctor_ok j = true)
    (src : List (Option T)) (n : Nat) :
    ∀ (dst : List (Option T)) (i : Nat),
      relocate_loop ctor_ok src dst i n
        = (match construct_loop src i dst i n with
          | .error e => .error e
          | .ok d => .ok (d, none)) := by
  induction n with
  | zero => intro dst i; rfl
  | succ k ih =>
    intro dst i
    rw [relocate_loop, construct_loop]
    cases hr : read src i with
    | error e => rfl
    | ok x =>
      simp only [hok, if_true]
      cases hc : construct_at dst i x with
      | error e => rfl
      | ok d => exact ih d (i + 1)

theorem reserve_traced_no_failure (ctor_ok : Nat → Bool) (hok : ∀ j, ctor_ok j = true)
    (v : vector T N) (n : Nat) :
    match v.reserve n with
    | .error e => reserve_traced true ctor_ok v n = .error e
    | .ok w => ∃ d, reserve_traced true ctor_ok v n = .ok { after := w, thrown := false, deleted := d } := by
  unfold reserve reserve_traced
  by_cases hn : n ≤ v.capacity
  · simp only [if_pos hn]
    exact ⟨none, rfl⟩
  · simp only [if_neg hn, Bool.not_true, Bool.false_eq_true, if_false,
      relocate_loop_ok ctor_ok hok]
    cases hc : construct_loop v.data 0 (allocate T N n) 0 v.size with
    | error e => rfl
    | ok d =>
      simp only []
      cases hm : v.is_using_static_buffer with
      | false => exact ⟨_, rfl⟩
      | true =>
        simp only [Bool.not_true, Bool.false_eq_true, if_false]
        cases hd : destroy_n v.storage_ 0 v.size with
        | error e => rfl
        | ok st => exact ⟨_, rfl⟩

theorem reserve_traced_fail (ctor_ok : Nat → Bool) (v : vector T N) (xs : List T) (k n i : Nat)
    (h : v.Laid xs k) (hs : v.size_ = xs.length) (hn : v.capacity_ < n) (hle : xs.length ≤ n)
    (hb : element_bytes T N * n < size_t_range)
    (hi : i < xs.length) (hfail : ctor_ok i = false) (hbefore : ∀ j, j < i → ctor_ok j = true) :
    reserve_traced true ctor_ok v n
      = .ok { after := v, thrown := true, deleted := some (List.replicate n none) } := by
  unfold Laid at h
  have hsplit : xs = [] ++ xs.take i ++ xs.get ⟨i, hi⟩ :: xs.drop (i + 1) := by
    simp
  have lt : (xs.take i).length = i := by simp; omega
  have ld : (xs.drop (i + 1)).length = xs.length - (i + 1) := by simp
  have hloop := relocate_loop_fail ctor_ok (xs.take i) [] [] (xs.get ⟨i, hi⟩) (xs.drop (i + 1))
    (List.replicate k none) (n - i) rfl
    (fun j _ h2 => hbefore j (by simpa [lt] using h2)) (by simpa [lt] using hfail)
  rw [← hsplit] at hloop
  simp only [List.length_nil, List.nil_append, lt, ld, Nat.zero_add] at hloop
  have hcount : i + 1 + (xs.length - (i + 1)) = xs.length := by omega
  have hcap : i + (n - i) = n := by omega
  rw [hcount, hcap] at hloop
  have hclean := destroy_n_spec (xs.take i) [] (List.replicate (n - i) none)
  simp only [List.nil_append, List.length_nil, lt] at hclean
  unfold reserve_traced
  rw [if_neg (by simp [capacity]; omega), allocate_eq n hb]
  simp only [Bool.not_true, Bool.false_eq_true, if_false, h, size, hs, hloop, hclean]
  rw [← List.replicate_add, hcap]

theorem data_length_of_valid (v : vector T N) (hv : v.Valid) : v.data.length = v.capacity_ :=
  hv.2.1.symm

theorem addressable_of_capacity (v w : vector T N) (h : w.capacity_ = v.capacity_)
    (ha : v.Addressable) : w.Addressable := by
  unfold Addressable at ha ⊢
  rw [h]; exact ha

theorem pop_back_valid (v : vector T N) (hv : v.Valid) :
    ∃ w, v.pop_back = .ok w ∧ w.Valid ∧ w.capacity_ = v.capacity_ ∧
      w.is_using_static_buffer = v.is_using_static_buffer ∧ w.size_ = v.size_ - 1 := by
  by_cases h0 : v.size_ = 0
  · exact ⟨v, pop_back_empty v h0, hv, rfl, rfl, by omega⟩
  · obtain ⟨stv, capv, invv, adv⟩ := hv
    obtain ⟨xs, lx, hx⟩ := laid_of_invariant v invv
    unfold CapacityInvariant at capv
    have lev := invv.1
    have hxs : xs ≠ [] := by
      intro h; rw [h] at lx; simp at lx; omega
    obtain ⟨ys, y, rfl⟩ : ∃ ys y, xs = ys ++ [y] :=
      ⟨xs.dropLast, xs.getLast hxs, (List.dropLast_append_getLast hxs).symm⟩
    simp only [List.length_append, List.length_singleton] at lx
    obtain ⟨w, hp, hl, hs, hc, hm, hst⟩ := pop_back_laid v ys y _ hx lx.symm
    exact ⟨w, hp, valid_of_laid w ys _ hl hs (hst.trans stv) (by omega)
      (addressable_of_capacity v w hc adv), hc, hm, by omega⟩

theorem clear_valid (v : vector T N) (hv : v.Valid) :
    ∃ w, v.clear = .ok w ∧ w.Valid ∧ w.capacity_ = v.capacity_ ∧
      w.is_using_static_buffer = v.is_using_static_buffer ∧ w.size_ = 0 := by
  obtain ⟨stv, capv, invv, adv⟩ := hv
  obtain ⟨xs, lx, hx⟩ := laid_of_invariant v invv
  unfold CapacityInvariant at capv
  have lev := invv.1
  obtain ⟨w, hp, hl, hs, hc, hm, hst⟩ := clear_laid v xs _ hx lx.symm
  exact ⟨w, hp, valid_of_laid w [] _ hl hs (hst.trans stv) (by simp; omega)
    (addressable_of_capacity v w hc adv), hc, hm, hs⟩

theorem run_shrink_calls_valid (calls : List shrink_call) :
    ∀ (v : vector T N), v.Valid →
      ∃ w, v.run_shrink_calls calls = .ok w ∧ w.Valid ∧ w.capacity_ = v.capacity_ ∧
        w.is_using_static_buffer = v.is_using_static_buffer ∧ w.size_ ≤ v.size_ := by
  induction calls with
  | nil => intro v hv; exact ⟨v, rfl, hv, rfl, rfl, le_refl _⟩
  | cons c calls ih =>
    intro v hv
    cases c with
    | pop_back =>
      obtain ⟨p, hp, hpv, hpc, hpm, hps⟩ := pop_back_valid v hv
      obtain ⟨w, hw, hwv, hwc, hwm, hws⟩ := ih p hpv
      refine ⟨w, ?_, hwv, hwc.trans hpc, hwm.trans hpm, by omega⟩
      rw [run_shrink_calls]; simp only [hp]; exact hw
    | clear =>
      obtain ⟨p, hp, hpv, hpc, hpm, hps⟩ := clear_valid v hv
      obtain ⟨w, hw, hwv, hwc, hwm, hws⟩ := ih p hpv
      refine ⟨w, ?_, hwv, hwc.trans hpc, hwm.trans hpm, by omega⟩
      rw [run_shrink_calls]; simp only [hp]; exact hw

theorem size_le_capacity_of_valid (v : vector T N) (hv : v.Valid) : v.size_ ≤ v.capacity_ := by
  have h1 := hv.2.2.1.1
  have h2 := data_length_of_valid v hv
  omega

theorem bytes_fit_of_valid (v : vector T N) (hv : v.Valid) :
    element_bytes T N * v.capacity_ < size_t_range := by
  have h := hv.2.2.2
  unfold Addressable at h
  have := range_eq_two_limits
  omega

theorem double_capacity_fits (v : vector T N) (hv : v.Valid) :
    element_bytes T N * (v.capacity_ * 2) < size_t_range := by
  have h := hv.2.2.2
  unfold Addressable at h
  rw [double_bytes, range_eq_two_limits]
  omega

theorem double_size_fits (v : vector T N) (hv : v.Valid) :
    element_bytes T N * (v.size_ * 2) ≤ size_t_range := by
  have h1 := double_capacity_fits v hv
  have h2 := bytes_mono (T := T) (N := N)
    (Nat.mul_le_mul_right 2 (size_le_capacity_of_valid v hv))
  omega

theorem copy_construct_same_elements (C : vector T N) (hC : C.Valid) :
    ∃ C2, copy_construct C = .ok C2 ∧ C2.same_elements C ∧ C2.ElementInvariant ∧
      C2.storage_.length = N := by
  have hb := bytes_fit_of_valid C hC
  obtain ⟨-, capC, invC, -⟩ := hC
  obtain ⟨xs, lx, hx⟩ := laid_of_invariant C invC
  unfold CapacityInvariant at capC
  have leC := invC.1
  obtain ⟨C2, l, hcopy, hl, hsz, -, hst, -, -⟩ :=
    copy_construct_spec C xs _ hx lx.symm (by omega) hb
  exact ⟨C2, hcopy, same_elements_of_laid C2 C xs l _ hl hx hsz lx.symm,
    invariant_of_laid C2 xs l hl hsz, hst⟩

theorem push_back_element_not_full (v : vector T N) (xs : List T) (k i : Nat) (y : T)
    (h : v.Laid xs (k + 1)) (hs : v.size_ = xs.length) (hc : v.capacity_ = xs.length + (k + 1))
    (hy : xs[i]? = some y) :
    ∃ w, v.push_back (.element i) = .ok w ∧ w.Laid (xs ++ [y]) k ∧ w.size_ = xs.length + 1 ∧
      w.capacity_ = v.capacity_ ∧ w.is_using_static_buffer = v.is_using_static_buffer ∧
      w.storage_.length = v.storage_.length := by
  have hr : read v.data i = .ok y := at_index_of_laid_some v xs _ h i y hy
  unfold Laid at h
  have hne : ¬ v.size = v.capacity := by simp [size, capacity]; omega
  unfold push_back
  simp only []
  rw [if_neg hne]
  simp only [referent, hne, false_and, decide_False, Bool.false_eq_true, if_false, hr]
  simp only [size, h, hs, construct_at_first_raw]
  refine ⟨_, rfl, data_with_data v _, rfl, capacity_with_data v _, static_with_data v _, ?_⟩
  exact storage_with_data v _ (by rw [h]; simp)

theorem reserve_laid_of_ok (v w : vector T N) (xs : List T) (k n : Nat) (h : v.Laid xs k)
    (hs : v.size_ = xs.length) (hw : v.reserve n = .ok w) :
    ∃ l, w.Laid xs l ∧ w.size_ = xs.length := by
  unfold reserve at hw
  by_cases hn : n ≤ v.capacity
  · rw [if_pos hn] at hw
    cases hw
    exact ⟨k, h, hs⟩
  · rw [if_neg hn] at hw
    have h' := h
    unfold Laid at h'
    unfold allocate at hw
    rw [h', size, hs] at hw
    cases hc : construct_loop (xs.map some ++ List.replicate k none) 0
        (List.replicate (element_bytes T N * n % size_t_range / element_bytes T N) none) 0
        xs.length with
    | error e => rw [hc] at hw; cases hw
    | ok d =>
      rw [hc] at hw
      obtain ⟨hd, -⟩ := construct_loop_shape xs _ _ d hc
      cases hm : v.is_using_static_buffer with
      | false =>
        simp only [hm, Bool.not_false, if_true] at hw
        cases hw
        exact ⟨_, hd, rfl⟩
      | true =>
        simp only [hm, Bool.not_true, Bool.false_eq_true, if_false] at hw
        cases hst : destroy_n v.storage_ 0 xs.length with
        | error e => rw [hst] at hw; cases hw
        | ok st =>
          rw [hst] at hw
          cases hw
          exact ⟨_, hd, rfl⟩

theorem push_back_laid_of_ok (v w : vector T N) (xs : List T) (k : Nat) (x : T)
    (h : v.Laid xs k) (hs : v.size_ = xs.length) (hw : v.push_back (.outside x) = .ok w) :
    ∃ l, w.Laid (xs ++ [x]) l ∧ w.size_ = xs.length + 1 := by
  unfold push_back at hw
  simp only [referent] at hw
  cases hr : (if v.size = v.capacity then v.reserve (v.capacity * 2 % size_t_range)
      else Except.ok v) with
  | error e => rw [hr] at hw; cases hw
  | ok r =>
    rw [hr] at hw
    have hrl : ∃ l, r.Laid xs l ∧ r.size_ = xs.length := by
      by_cases hfull : v.size = v.capacity
      · rw [if_pos hfull] at hr
        exact reserve_laid_of_ok v r xs k _ h hs hr
      · rw [if_neg hfull] at hr
        cases hr
        exact ⟨k, h, hs⟩
    obtain ⟨l, hl, hrs⟩ := hrl
    unfold Laid at hl
    simp only [size, hl, hrs] at hw
    cases l with
    | zero =>
      simp [construct_at] at hw
    | succ l =>
      rw [construct_at_first_raw] at hw
      cases hw
      exact ⟨l, data_with_data r _, rfl⟩

theorem push_all_laid_of_ok (vs : List T) :
    ∀ (v w : vector T N) (xs : List T) (k : Nat), v.Laid xs k → v.size_ = xs.length →
      v.push_all vs = .ok w → ∃ l, w.Laid (xs ++ vs) l ∧ w.size_ = xs.length + vs.length := by
  induction vs with
  | nil =>
    intro v w xs k h hs hw
    cases hw
    exact ⟨k, by simpa using h, by simpa using hs⟩
  | cons y vs ih =>
    intro v w xs k h hs hw
    rw [push_all] at hw
    cases hp : v.push_back (.outside y) with
    | error e => rw [hp] at hw; cases hw
    | ok u =>
      rw [hp] at hw
      obtain ⟨l1, hl1, hs1⟩ := push_back_laid_of_ok v u xs k y h hs hp
      obtain ⟨l, hl, hsz⟩ := ih u w (xs ++ [y]) l1 hl1 (by simpa using hs1) hw
      exact ⟨l, by simpa using hl, by simp at hsz ⊢; omega⟩

end vector

namespace vector

variable {T : Type} {N : Nat} [layout T N]

/-- C1: `N = 8`, `A` holds one element in its inline array, `B` is in dynamic
mode (after `reserve(16)`) and holds none.  Both are valid, and `A.swap(B)`
leaves defined behaviour: `swap_dynamic_with_static` exchanges `A.size() = 1`
slots although slot 0 of the block of `B` holds no object. -/
theorem swap_static_longer_than_dynamic :
    ∃ A B : vector String 8, (init : vector String 8).push_back "s1" = .ok A ∧
      (init : vector String 8).reserve 16 = .ok B ∧ A.Valid ∧ B.Valid ∧
      A.is_using_static_buffer = true ∧ B.is_using_static_buffer = false ∧
      A.size = 1 ∧ B.size = 0 ∧ A.swap B = .error .uninitialised ∧
      B.swap A = .error .uninitialised :=
  ⟨_, _, rfl, rfl, by decide, by decide, rfl, rfl, rfl, rfl, rfl, rfl⟩

/-- C2: `N = 8`, `A` is in dynamic mode with a block of 16 slots and two
elements, `B` holds one element in its inline array; both are valid.  After
`A.swap(B)` the container `B` still uses its inline array of 8 slots but reports
capacity 16, and `A` still owns its block of 16 slots but reports capacity 8:
neither satisfies the capacity invariant, and seven more `push_back` calls on
`B` run past the end of its inline array. -/
theorem swap_exchanges_capacity_of_unexchanged_buffers :
    ∃ A0 A B A' B' : vector String 8, (init : vector String 8).reserve 16 = .ok A0 ∧
      A0.push_all ["s5", "s6"] = .ok A ∧ (init : vector String 8).push_back "s1" = .ok B ∧
      A.Valid ∧ B.Valid ∧ A.swap B = .ok (A', B') ∧
      B'.is_using_static_buffer = true ∧ B'.capacity = 16 ∧ B'.data.length = 8 ∧
      A'.is_using_static_buffer = false ∧ A'.capacity = 8 ∧ A'.data.length = 16 ∧
      ¬ A'.Valid ∧ ¬ B'.Valid ∧
      B'.push_all ["s7", "s8", "s9", "s10", "s11", "s12", "s13"] = .error .out_of_bounds :=
  ⟨_, _, _, _, _, rfl, rfl, rfl, by decide, by decide, rfl, rfl, rfl, rfl, rfl, rfl, rfl,
    by decide, by decide, rfl⟩

/-- C3, the scenario as stated fails: with `N = 8`, nine strings pushed on the
first container and three on the second, after the swap the first container
does not have capacity 8 and is not in static mode. -/
theorem scenario_first_is_not_static_after_swap :
    ∃ first second first' second' : vector String 8,
      (init : vector String 8).push_all ["a0", "a1", "a2", "a3", "a4", "a5", "a6", "a7", "a8"]
        = .ok first ∧
      (init : vector String 8).push_all ["b0", "b1", "b2"] = .ok second ∧
      first.swap second = .ok (first', second') ∧
      first'.capacity ≠ 8 ∧ first'.is_using_static_buffer ≠ true :=
  ⟨_, _, _, _, rfl, rfl, rfl, by decide, by decide⟩

/-- C3, amended: with `N = 8`, the first container holds nine pushed values
(dynamic mode, capacity 16) and the second three (static mode, size 3, capacity
8).  After `first.swap(second)`, and likewise after `second.swap(first)`, the
first container has size 3 and holds the three values of the second in order,
still in dynamic mode on its block of 16 slots (capacity 16), and the second has
size 9, is in dynamic mode and holds the nine values in order. -/
theorem scenario_swap_nine_with_three [layout T 8] (a0 a1 a2 a3 a4 a5 a6 a7 a8 b0 b1 b2 : T) :
    ∃ first second first' second' : vector T 8,
      (init : vector T 8).push_all [a0, a1, a2, a3, a4, a5, a6, a7, a8] = .ok first ∧
      first.size = 9 ∧ first.capacity = 16 ∧ first.is_using_static_buffer = false ∧
      (init : vector T 8).push_all [b0, b1, b2] = .ok second ∧
      second.size = 3 ∧ second.capacity = 8 ∧ second.is_using_static_buffer = true ∧
      first.swap second = .ok (first', second') ∧
      first'.size = 3 ∧ first'.live_slots = [some b0, some b1, some b2] ∧
      first'.is_using_static_buffer = false ∧ first'.capacity = 16 ∧ first'.data.length = 16 ∧
      second'.size = 9 ∧ second'.is_using_static_buffer = false ∧
      second'.live_slots
        = [some a0, some a1, some a2, some a3, some a4, some a5, some a6, some a7, some a8] ∧
      second.swap first = .ok (second', first') := by
  have ha : allocate T 8 16 = List.replicate 16 none := allocate_eq 16 (by
    have h : element_bytes T 8 * 8 < object_size_limit := layout.inline_fits
    have := range_eq_two_limits
    omega)
  exact
  ⟨⟨List.replicate 8 none,
      some ([some a0, some a1, some a2, some a3, some a4, some a5, some a6, some a7, some a8]
        ++ List.replicate 7 none), 9, 16⟩,
    ⟨[some b0, some b1, some b2] ++ List.replicate 5 none, none, 3, 8⟩,
    ⟨List.replicate 8 none, some ([some b0, some b1, some b2] ++ List.replicate 13 none), 3, 16⟩,
    ⟨List.replicate 8 none,
      some ([some a0, some a1, some a2, some a3, some a4, some a5, some a6, some a7, some a8]
        ++ List.replicate 7 none), 9, 16⟩,
    by simp [push_all, push_back, referent, size_t_range, ha, init, size, capacity, reserve,
      construct_loop, read, construct_at, destroy_n, destroy_at, data, with_data,
      is_using_static_buffer, List.replicate],
    rfl, rfl, rfl,
    by simp [push_all, push_back, referent, size_t_range, ha, init, size, capacity,
      construct_at, data, with_data, List.replicate],
    rfl, rfl, rfl,
    by simp [swap, swap_dynamic_with_static, swap_ranges, swap_loop, push_loop, at_index,
      destroy, push_back, referent, size_t_range, ha, size, capacity, reserve, construct_loop,
      read, construct_at, destroy_n, destroy_at, data, with_data, is_using_static_buffer,
      List.replicate],
    rfl, by simp [live_slots, data, size], rfl, rfl, by simp [data], rfl, rfl,
    by simp [live_slots, data, size],
    by simp [swap, swap_dynamic_with_static, swap_ranges, swap_loop, push_loop, at_index,
      destroy, push_back, referent, size_t_range, ha, size, capacity, reserve, construct_loop,
      read, construct_at, destroy_n, destroy_at, data, with_data, is_using_static_buffer,
      List.replicate]⟩

/-- C4: `N = 8`, `A` holds one element in its inline array and `B` is in dynamic
mode with two elements; both are valid.  The first `A.swap(B)` succeeds; the
second one leaves defined behaviour, because the inline side now holds more
elements than the block side. -/
theorem swap_twice_static_with_dynamic :
    ∃ B0 A B A1 B1 : vector String 8, (init : vector String 8).push_back "s1" = .ok A ∧
      (init : vector String 8).reserve 16 = .ok B0 ∧ B0.push_all ["s5", "s6"] = .ok B ∧
      A.Valid ∧ B.Valid ∧ A.swap B = .ok (A1, B1) ∧
      A1.is_using_static_buffer = true ∧ A1.size = 2 ∧
      B1.is_using_static_buffer = false ∧ B1.size = 1 ∧
      A1.swap B1 = .error .uninitialised :=
  ⟨_, _, _, _, _, rfl, rfl, rfl, by decide, by decide, rfl, rfl, rfl, rfl, rfl, rfl⟩

/-- C5: when both containers use their inline arrays, `A.swap(B)` succeeds, each
container ends with the size and the elements (in order) the other one had, both
still use their inline arrays, both capacities are still `N`, and both are valid
again. -/
theorem swap_of_two_static_containers (A B : vector T N) (hA : A.Valid) (hB : B.Valid)
    (sA : A.is_using_static_buffer = true) (sB : B.is_using_static_buffer = true) :
    ∃ A' B', A.swap B = .ok (A', B') ∧ A'.same_elements B ∧ B'.same_elements A ∧
      A'.is_using_static_buffer = true ∧ B'.is_using_static_buffer = true ∧
      A'.capacity = N ∧ B'.capacity = N ∧ A'.Valid ∧ B'.Valid :=
  swap_static_spec A B hA hB sA sB

/-- C5 at `N = 8` with sizes 2 and 5. -/
theorem swap_of_two_static_containers_witness :
    example_static_two.Valid ∧ example_static_five.Valid ∧
    ∃ A' B', example_static_two.swap example_static_five = .ok (A', B') ∧
      A'.same_elements example_static_five ∧ B'.same_elements example_static_two ∧
      A'.is_using_static_buffer = true ∧ B'.is_using_static_buffer = true ∧
      A'.capacity = 8 ∧ B'.capacity = 8 ∧ A'.Valid ∧ B'.Valid :=
  ⟨by decide, by decide,
    swap_of_two_static_containers example_static_two example_static_five (by decide) (by decide)
      rfl rfl⟩

/-- C6: `N = 8`, the source `C` is in dynamic mode with capacity 16 and holds
three strings; it is valid.  Its copy `C2` holds the same three strings, in its
inline array of 8 slots, but reports capacity 16.  Five `push_back` calls on
`C2` succeed; the sixth finds `size() != capacity()`, does not grow, and
constructs the new element past the end of the inline array: this mutation of
`C2` writes storage that is not a slot of `C2`, and the execution leaves
defined behaviour. -/
theorem push_back_on_copy_overruns_inline_array :
    ∃ C0 C C2 W : vector String 8, (init : vector String 8).reserve 16 = .ok C0 ∧
      C0.push_all ["s1", "s2", "s3"] = .ok C ∧ C.Valid ∧ C.copy_construct = .ok C2 ∧
      C2.size = C.size ∧ C2.live_slots = C.live_slots ∧
      C2.is_using_static_buffer = true ∧ C2.data.length = 8 ∧
      C2.push_all ["t1", "t2", "t3", "t4", "t5"] = .ok W ∧ W.size = 8 ∧ W.capacity = 16 ∧
      W.push_back "t6" = .error .out_of_bounds ∧
      C2.push_all ["t1", "t2", "t3", "t4", "t5", "t6"] = .error .out_of_bounds :=
  ⟨_, _, _, _, rfl, rfl, by decide, rfl, rfl, rfl, rfl, rfl, rfl, rfl, rfl, rfl, rfl⟩

/-- C7: `N = 8`, the source is in dynamic mode with capacity 16 and holds three
elements (`reserve(16)`, then three `push_back`); it is valid.  Its copy uses
the inline array of 8 slots and reports capacity 16. -/
theorem copy_of_short_dynamic_source :
    ∃ S0 S C2 : vector String 8, (init : vector String 8).reserve 16 = .ok S0 ∧
      S0.push_all ["s1", "s2", "s3"] = .ok S ∧ S.Valid ∧ S.size = 3 ∧
      S.is_using_static_buffer = false ∧ S.copy_construct = .ok C2 ∧
      C2.is_using_static_buffer = true ∧ C2.capacity = 16 ∧ C2.data.length = 8 ∧
      ¬ C2.CapacityInvariant :=
  ⟨_, _, _, rfl, rfl, by decide, rfl, rfl, rfl, rfl, rfl, rfl, by decide⟩

/-- C8: `N = 8`, `A` is in dynamic mode with two elements and `B` holds three
elements in its inline array; both are valid.  The assignment `A = B` leaves
defined behaviour in the swap with the temporary copy. -/
theorem copy_assign_short_dynamic_from_static :
    ∃ A0 A B : vector String 8, (init : vector String 8).reserve 16 = .ok A0 ∧
      A0.push_all ["s5", "s6"] = .ok A ∧ (init : vector String 8).push_all ["s1", "s2", "s3"] = .ok B ∧
      A.Valid ∧ B.Valid ∧ A.is_using_static_buffer = false ∧
      B.is_using_static_buffer = true ∧ A.copy_assign B = .error .uninitialised :=
  ⟨_, _, _, rfl, rfl, rfl, by decide, by decide, rfl, rfl, rfl⟩

/-- C9: `N = 8`, `A` holds three elements in its inline array and `B` is in
dynamic mode and holds none (nine `push_back`, then `clear`); both are valid.
The assignment `A = std::move(B)` leaves defined behaviour in the swap. -/
theorem move_assign_static_from_shorter_dynamic :
    ∃ B0 A B : vector String 8, (init : vector String 8).push_all ["s1", "s2", "s3"] = .ok A ∧
      (init : vector String 8).push_all ["s10", "s11", "s12", "s13", "s14", "s15", "s16", "s17", "s18"] = .ok B0 ∧
      B0.clear = .ok B ∧ A.Valid ∧ B.Valid ∧ A.is_using_static_buffer = true ∧
      B.is_using_static_buffer = false ∧ A.move_assign B = .error .uninitialised :=
  ⟨_, _, _, rfl, rfl, rfl, by decide, by decide, rfl, rfl, rfl⟩

end vector

namespace vector

variable {T : Type} {N : Nat} [layout T N]

/-- C11, the claim as stated fails: `N = 8`, a valid container holds eight
strings in its inline array and is full.  `push_back(v[0])` grows: `reserve`
relocates the elements and destroys the objects of the inline array, among them
the one the argument refers to, before line 174 copies from it.  The call leaves
defined behaviour instead of storing the value of `v[0]` at index 8. -/
theorem push_back_of_own_element_on_growth :
    ∃ v : vector String 8,
      (init : vector String 8).push_all ["s1", "s2", "s3", "s4", "s5", "s6", "s7", "s8"]
        = .ok v ∧
      v.Valid ∧ v.size = 8 ∧ v.capacity = 8 ∧ v.at_index 0 = .ok "s1" ∧
      v.push_back (.element 0) = .error .uninitialised :=
  ⟨_, rfl, by decide, rfl, rfl, rfl, rfl⟩

/-- C11, amended: on a valid container with at least one slot, `push_back` of a
value that is no element of the container itself succeeds, with or without
growth: the size grows by exactly 1, the value is at the old index `size`, every
element held before is still at its index with its value, and the capacity and
element invariants hold again.  The same is true of `push_back(v[i])` for an
element of the container itself when the call does not grow
(`size != capacity`).  Hence after any run of successful `push_back` calls with
such values on a fresh container, `size` is the number of calls and element `i`
is the `i`-th pushed value; and for `N ≥ 1` a run of `k` calls does succeed when
`k` elements fit in one object. -/
theorem push_back_appends (v : vector T N) (x : T) (hv : v.Valid) (hpos : 0 < v.capacity) :
    (∃ w, v.push_back x = .ok w ∧ w.size = v.size + 1 ∧ w.at_index v.size = .ok x ∧
      (∀ i, i < v.size → ∃ y, v.at_index i = .ok y ∧ w.at_index i = .ok y) ∧
      w.CapacityInvariant ∧ w.ElementInvariant ∧ w.storage_.length = N) ∧
    (∀ j, j < v.size → v.size ≠ v.capacity →
      ∃ z w, v.at_index j = .ok z ∧ v.push_back (.element j) = .ok w ∧
        w.size = v.size + 1 ∧ w.at_index v.size = .ok z ∧
        (∀ i, i < v.size → ∃ y, v.at_index i = .ok y ∧ w.at_index i = .ok y) ∧ w.Valid) ∧
    (∀ (values : List T) (w : vector T N), (init : vector T N).push_all values = .ok w →
      w.size = values.length ∧ (∀ i y, values[i]? = some y → w.at_index i = .ok y) ∧
      w.ElementInvariant) ∧
    (∀ values : List T, 0 < N → element_bytes T N * values.length < object_size_limit →
      ∃ w, (init : vector T N).push_all values = .ok w ∧ w.CapacityInvariant ∧
        w.storage_.length = N) := by
  have hfit := double_capacity_fits v hv
  have hv' := hv
  obtain ⟨stv, capv, invv, adv⟩ := hv
  obtain ⟨xs, lx, hx⟩ := laid_of_invariant v invv
  unfold CapacityInvariant at capv
  have lev := invv.1
  have keep : ∀ (w : vector T N) (t : T) (l : Nat), w.Laid (xs ++ [t]) l →
      ∀ i, i < v.size → ∃ y, v.at_index i = .ok y ∧ w.at_index i = .ok y := by
    intro w t l hl i hi
    have hi' : i < xs.length := by simpa [size, ← lx] using hi
    obtain ⟨y, hy, hvy⟩ := at_index_of_laid_exists v xs _ hx i hi'
    exact ⟨y, hvy, at_index_of_laid_some w _ l hl i y
      (by rw [List.getElem?_append_left hi']; exact hy)⟩
  refine ⟨?_, ?_, ?_, ?_⟩
  · obtain ⟨w, l, hp, hl, hs, hc, hst, -⟩ :=
      push_back_spec v xs _ x hx lx.symm (by omega) hpos (fun _ => hfit)
    have hwv : w.CapacityInvariant ∧ w.ElementInvariant := by
      constructor
      · unfold CapacityInvariant
        unfold Laid at hl
        rw [hl, hc]; simp; omega
      · exact invariant_of_laid w _ l hl (by simpa using hs)
    exact ⟨w, hp, by simp [size, hs, lx], at_index_of_laid_some w _ l hl _ x (by simp [size, ← lx]),
      keep w x l hl, hwv.1, hwv.2, hst.trans stv⟩
  · intro j hj hroom
    simp only [size, capacity] at hj hroom
    have hj' : j < xs.length := by omega
    obtain ⟨z, hz, hvz⟩ := at_index_of_laid_exists v xs _ hx j hj'
    obtain ⟨k, hk⟩ : ∃ k, v.data.length - v.size_ = k + 1 :=
      ⟨v.data.length - v.size_ - 1, by omega⟩
    rw [hk] at hx
    obtain ⟨w, hp, hl, hs, hc, hm, hst⟩ :=
      push_back_element_not_full v xs k j z hx lx.symm (by omega) hz
    exact ⟨z, w, hvz, hp, by simp [size, hs, lx],
      at_index_of_laid_some w _ k hl _ z (by simp [size, ← lx]), keep w z k hl,
      valid_of_laid w _ k hl (by simpa using hs) (hst.trans stv) (by simp; omega)
        (addressable_of_capacity v w hc adv)⟩
  · intro values w hw
    have h0 : (init : vector T N).Laid [] N := by simp [Laid, init, data]
    obtain ⟨l, hl, hs⟩ := push_all_laid_of_ok values (init : vector T N) w [] N h0 rfl hw
    simp only [List.nil_append, List.length_nil, Nat.zero_add] at hl hs
    exact ⟨hs, fun i y hy => at_index_of_laid_some w values l hl i y hy,
      invariant_of_laid w values l hl hs⟩
  · intro values hN hvals
    obtain ⟨st0, -, -, -⟩ := (init_valid : (init : vector T N).Valid)
    have h0 : (init : vector T N).Laid [] N := by simp [Laid, init, data]
    have hb : element_bytes T N * (([] : List T).length + values.length) * 2 ≤ size_t_range := by
      have := range_eq_two_limits
      simp only [List.length_nil, Nat.zero_add]
      omega
    obtain ⟨w, l, hp, hl, hs, hc, hst, -⟩ := push_all_spec values (init : vector T N) [] N h0 rfl
      (by simp [init]) (by simpa [init] using hN) (by rw [← Nat.mul_assoc]; exact hb)
    simp only [List.nil_append, List.length_nil, Nat.zero_add] at hl hs hc
    refine ⟨w, hp, ?_, hst.trans st0⟩
    unfold CapacityInvariant
    unfold Laid at hl
    rw [hl, hc]; simp

/-- C11 at `N = 8`: a push on a container holding two elements, a push of its
own first element, and a run of three pushes on a fresh container. -/
theorem push_back_appends_witness :
    example_static_two.Valid ∧ 0 < example_static_two.capacity ∧
    (∃ w, example_static_two.push_back 7 = .ok w ∧ w.size = example_static_two.size + 1 ∧
      w.at_index example_static_two.size = .ok 7 ∧
      (∀ i, i < example_static_two.size →
        ∃ y, example_static_two.at_index i = .ok y ∧ w.at_index i = .ok y) ∧
      w.CapacityInvariant ∧ w.ElementInvariant ∧ w.storage_.length = 8) ∧
    (∃ z w, example_static_two.at_index 0 = .ok z ∧
      example_static_two.push_back (.element 0) = .ok w ∧
      w.size = example_static_two.size + 1 ∧ w.at_index example_static_two.size = .ok z ∧
      (∀ i, i < example_static_two.size →
        ∃ y, example_static_two.at_index i = .ok y ∧ w.at_index i = .ok y) ∧ w.Valid) ∧
    (∃ w, (init : vector Nat 8).push_all [4, 5, 6] = .ok w ∧
      w.size = [4, 5, 6].length ∧ (∀ i y, [4, 5, 6][i]? = some y → w.at_index i = .ok y) ∧
      w.ElementInvariant ∧ w.CapacityInvariant ∧ w.storage_.length = 8) :=
  ⟨by decide, by decide,
    (push_back_appends example_static_two 7 (by decide) (by decide)).1,
    (push_back_appends example_static_two 7 (by decide) (by decide)).2.1 0 (by decide)
      (by decide),
    (let h := push_back_appends example_static_two 7 (by decide) (by decide)
     let ⟨w, hw, hc, hst⟩ := h.2.2.2 [4, 5, 6] (by decide) (by decide)
     let ⟨hs, he, hi⟩ := h.2.2.1 [4, 5, 6] w hw
     ⟨w, hw, hs, he, hi, hc, hst⟩)⟩

/-- C12: for `N ≥ 1`, `N` calls of `push_back` on a fresh container leave it in
static mode with size `N` and capacity `N`, and one more call makes the size
`N + 1`, the capacity `2 * N` and the mode dynamic.  In general, on a valid
container with at least one slot, `push_back` succeeds and the capacity
afterwards is twice the old one exactly when `size == capacity` held before the
call, and the old one otherwise. -/
theorem push_back_growth_threshold (hN : 0 < N) (values : List T) (hlen : values.length = N)
    (x : T) (v : vector T N) (hv : v.Valid) (hpos : 0 < v.capacity) (y : T) :
    (∃ w w', (init : vector T N).push_all values = .ok w ∧
      w.is_using_static_buffer = true ∧ w.size = N ∧ w.capacity = N ∧
      w.push_back x = .ok w' ∧ w'.size = N + 1 ∧ w'.capacity = 2 * N ∧
      w'.is_using_static_buffer = false) ∧
    (∃ u, v.push_back y = .ok u ∧ (u.capacity = 2 * v.capacity ↔ v.size = v.capacity) ∧
      (v.size ≠ v.capacity → u.capacity = v.capacity)) := by
  constructor
  · have h0 : (init : vector T N).Laid [] N := by simp [Laid, init, data]
    obtain ⟨w, hw, hl, hs, hc, hm, hst⟩ := push_all_within values (init : vector T N) [] N h0 rfl
      (by simp [init]) (by omega)
    simp only [List.nil_append, List.length_nil, Nat.zero_add, hlen, Nat.sub_self] at hl hs
    have hcN : w.capacity_ = N := hc
    have hbN : element_bytes T N * (w.capacity_ * 2) < size_t_range := by
      have h : element_bytes T N * N < object_size_limit := layout.inline_fits
      rw [hcN, double_bytes, range_eq_two_limits]
      omega
    obtain ⟨w', hp, hd, hs', hc', -⟩ := push_back_full w values x hl (by omega) (by omega)
      (by omega) hbN
    exact ⟨w, w', hw, hm, hs, hcN, hp, by simp [size, hs', hlen], by simp [capacity, hc', hlen],
      (dynamic_of_data w' _ hd).1⟩
  · have hfit := double_capacity_fits v hv
    obtain ⟨stv, capv, invv, -⟩ := hv
    obtain ⟨xs, lx, hx⟩ := laid_of_invariant v invv
    unfold CapacityInvariant at capv
    have lev := invv.1
    simp only [size, capacity] at hpos ⊢
    by_cases hfull : v.size_ = v.capacity_
    · have hk : v.data.length - v.size_ = 0 := by omega
      rw [hk] at hx
      obtain ⟨u, hp, -, -, hc, -⟩ := push_back_full v xs y hx lx.symm (by omega) hpos hfit
      exact ⟨u, hp, ⟨fun _ => hfull, fun _ => by omega⟩, fun h => absurd hfull h⟩
    · obtain ⟨j, hj⟩ : ∃ j, v.data.length - v.size_ = j + 1 :=
        ⟨v.data.length - v.size_ - 1, by omega⟩
      rw [hj] at hx
      obtain ⟨u, hp, -, -, hc, -, -⟩ := push_back_not_full v xs j y hx lx.symm (by omega)
      exact ⟨u, hp, ⟨fun h => by omega, fun h => absurd h hfull⟩, fun _ => hc⟩

/-- C12 at `N = 8`: eight pushes and a ninth on a fresh container, and a push on
a container holding two elements. -/
theorem push_back_growth_threshold_witness :
    0 < 8 ∧ [1, 2, 3, 4, 5, 6, 7, 8].length = 8 ∧ example_static_two.Valid ∧
    0 < example_static_two.capacity ∧
    (∃ w w', (init : vector Nat 8).push_all [1, 2, 3, 4, 5, 6, 7, 8] = .ok w ∧
      w.is_using_static_buffer = true ∧ w.size = 8 ∧ w.capacity = 8 ∧
      w.push_back 9 = .ok w' ∧ w'.size = 8 + 1 ∧ w'.capacity = 2 * 8 ∧
      w'.is_using_static_buffer = false) ∧
    (∃ u, example_static_two.push_back 3 = .ok u ∧
      (u.capacity = 2 * example_static_two.capacity ↔
        example_static_two.size = example_static_two.capacity) ∧
      (example_static_two.size ≠ example_static_two.capacity →
        u.capacity = example_static_two.capacity)) :=
  ⟨by decide, by decide, by decide, by decide,
    push_back_growth_threshold (by decide) [1, 2, 3, 4, 5, 6, 7, 8] (by decide) 9
      example_static_two (by decide) (by decide) 3⟩

/-- C13, the claim as stated fails: `N = 8`, strings of 32 bytes, a valid
container holding three strings, and `n = 2 ^ 59 + 2`.  The byte count
`sizeof(T) * n` wraps to 64, the new block has two slots, and the relocation of
the third element writes past it: `reserve(n)` leaves defined behaviour.  On an
empty container the call returns, with capacity `n` on a block of two slots. -/
theorem reserve_with_wrapped_byte_count :
    ∃ v r : vector String 8, (init : vector String 8).push_all ["s1", "s2", "s3"] = .ok v ∧
      v.Valid ∧ v.capacity < 576460752303423490 ∧
      element_bytes String 8 * 576460752303423490 % size_t_range = 64 ∧
      v.reserve 576460752303423490 = .error .out_of_bounds ∧
      (init : vector String 8).reserve 576460752303423490 = .ok r ∧
      r.capacity = 576460752303423490 ∧ r.data.length = 2 :=
  ⟨_, _, rfl, by decide, by decide, by decide, rfl, rfl, rfl, rfl⟩

/-- C13, amended: on a valid container, `reserve(n)` with `n ≤ capacity` returns
the container as it was; with `n > capacity` and a byte count `sizeof(T) * n`
that does not wrap in `size_t`, it succeeds and afterwards the capacity is `n`,
the container is in dynamic mode, the size and the elements at `[0, size)` are
what they were, in the same order, and the capacity and element invariants
hold. -/
theorem reserve_postcondition (v : vector T N) (n : Nat) (hv : v.Valid) :
    (n ≤ v.capacity → v.reserve n = .ok v) ∧
    (v.capacity < n → element_bytes T N * n < size_t_range →
      ∃ w, v.reserve n = .ok w ∧ w.capacity = n ∧
        w.is_using_static_buffer = false ∧ w.same_elements v ∧
        w.CapacityInvariant ∧ w.ElementInvariant ∧ w.storage_.length = N) := by
  constructor
  · intro h
    unfold reserve
    rw [if_pos h]
  · intro h hb
    obtain ⟨stv, capv, invv, -⟩ := hv
    obtain ⟨xs, lx, hx⟩ := laid_of_invariant v invv
    unfold CapacityInvariant at capv
    have lev := invv.1
    simp only [capacity] at h
    obtain ⟨w, hr, hd, hs, hc, hst⟩ := reserve_grow v xs _ n hx lx.symm h (by omega) hb
    obtain ⟨hm, hdata⟩ := dynamic_of_data w _ hd
    have hl : w.Laid xs (n - xs.length) := hdata
    refine ⟨w, hr, hc, hm, same_elements_of_laid w v xs _ _ hl hx (by omega) lx.symm, ?_,
      invariant_of_laid w xs _ hl (by omega), hst.trans stv⟩
    unfold CapacityInvariant
    rw [hdata, hc]; simp; omega

/-- C13 for a container holding five elements in its inline array (`N = 8`) and
`n = 20`. -/
theorem reserve_postcondition_witness :
    example_static_five.Valid ∧
    (20 ≤ example_static_five.capacity → example_static_five.reserve 20 = .ok example_static_five) ∧
    (example_static_five.capacity < 20 → element_bytes Nat 8 * 20 < size_t_range →
      ∃ w, example_static_five.reserve 20 = .ok w ∧
        w.capacity = 20 ∧ w.is_using_static_buffer = false ∧
        w.same_elements example_static_five ∧
        w.CapacityInvariant ∧ w.ElementInvariant ∧ w.storage_.length = 8) :=
  ⟨by decide, reserve_postcondition example_static_five 20 (by decide)⟩

/-- C14, the claim as stated fails: `N = 8`, strings of 32 bytes, a valid
container holding five strings, `n = 2 ^ 59 + 2`, and the construction of the
element of index 4 failing.  The byte count wraps, the new block has two slots,
and the relocation of the element of index 2 writes past it before any
constructor fails: the call leaves defined behaviour instead of propagating the
failure. -/
theorem reserve_failure_with_wrapped_byte_count :
    ∃ v : vector String 8,
      (init : vector String 8).push_all ["s1", "s2", "s3", "s4", "s5"] = .ok v ∧
      v.Valid ∧ v.capacity < 576460752303423490 ∧ 4 < v.size ∧
      reserve_traced true (fun j => decide (j ≠ 4)) v 576460752303423490
        = .error .out_of_bounds :=
  ⟨_, rfl, by decide, by decide, by decide, rfl⟩

/-- C14, amended: on a valid container and for `n > capacity`, when
`::operator new` fails, `reserve(n)` is left by an exception and the container
is exactly the one before the call: same buffer, mode, size, capacity and slots.
The same holds when the byte count `sizeof(T) * n` does not wrap in `size_t` and
the construction of the `i`-th relocated element is the first one to fail
(`i < size`); the new block is then released with the `i` objects built in it
destroyed, all its `n` slots raw. -/
theorem reserve_failure_leaves_container (v : vector T N) (n : Nat) (hv : v.Valid)
    (hn : v.capacity < n) :
    (∀ ctor_any : Nat → Bool,
      reserve_traced false ctor_any v n
        = .ok { after := v, thrown := true, deleted := none }) ∧
    (∀ (ctor_ok : Nat → Bool) (i : Nat), element_bytes T N * n < size_t_range → i < v.size →
      ctor_ok i = false → (∀ j, j < i → ctor_ok j = true) →
      reserve_traced true ctor_ok v n
        = .ok { after := v, thrown := true, deleted := some (List.replicate n none) }) := by
  obtain ⟨stv, capv, invv, -⟩ := hv
  obtain ⟨xs, lx, hx⟩ := laid_of_invariant v invv
  unfold CapacityInvariant at capv
  have lev := invv.1
  simp only [capacity, size] at hn ⊢
  constructor
  · intro ctor_any
    unfold reserve_traced
    rw [if_neg (by simp [capacity]; omega)]
    rfl
  · intro ctor_ok i hb hi hfail hbefore
    exact reserve_traced_fail ctor_ok v xs _ n i hx lx.symm hn (by omega) hb (by omega) hfail
      hbefore

/-- C14 at `N = 8`: a failed allocation on an empty container, and the
construction of the element of index 3 failing on a container in dynamic mode
holding nine elements, with `n = 32`. -/
theorem reserve_failure_leaves_container_witness :
    example_empty.Valid ∧ example_empty.capacity < 32 ∧
    example_dynamic_nine.Valid ∧ example_dynamic_nine.capacity < 32 ∧
    element_bytes Nat 8 * 32 < size_t_range ∧ 3 < example_dynamic_nine.size ∧
    reserve_traced false (fun _ => true) example_empty 32
      = .ok { after := example_empty, thrown := true, deleted := none } ∧
    reserve_traced true (fun j => decide (j ≠ 3)) example_dynamic_nine 32
      = .ok { after := example_dynamic_nine, thrown := true,
              deleted := some (List.replicate 32 none) } :=
  ⟨by decide, by decide, by decide, by decide, by decide, by decide,
    (reserve_failure_leaves_container example_empty 32 (by decide) (by decide)).1
      (fun _ => true),
    (reserve_failure_leaves_container example_dynamic_nine 32 (by decide) (by decide)).2
      (fun j => decide (j ≠ 3)) 3 (by decide) (by decide) (by decide) (by decide)⟩

/-- C15, the claim as stated fails: `N = 8`, strings of 32 bytes and
`n = 2 ^ 59 + 2`.  On a fresh container `reserve(n)` returns with capacity `n`
on a block of two slots (the byte count wraps to 64); two `push_back` calls
succeed and the third writes past the block. -/
theorem pushes_after_reserve_with_wrapped_byte_count :
    ∃ r w : vector String 8, (init : vector String 8).reserve 576460752303423490 = .ok r ∧
      r.capacity = 576460752303423490 ∧ r.data.length = 2 ∧
      r.push_all ["a", "b"] = .ok w ∧ w.push_back "c" = .error .out_of_bounds ∧
      r.push_all ["a", "b", "c"] = .error .out_of_bounds :=
  ⟨_, _, rfl, rfl, rfl, rfl, rfl, rfl⟩

/-- C15, amended: on a fresh container and for `n` with a byte count
`sizeof(T) * n` that does not wrap in `size_t`, `reserve(n)` succeeds and leaves
capacity `max(N, n)`; every run of at most `n` calls of `push_back` after it
succeeds and leaves the capacity, the mode and the number of slots of the buffer
in use as they were right after `reserve(n)`, and as long as fewer than `n`
values have been pushed the container is not full, so that the next `push_back`
does not call for growth. -/
theorem reserve_then_pushes_keep_buffer (n : Nat) (hb : element_bytes T N * n < size_t_range)
    (values : List T) (hlen : values.length ≤ n) :
    ∃ r w, (init : vector T N).reserve n = .ok r ∧ r.capacity = max N n ∧ r.size = 0 ∧
      r.push_all values = .ok w ∧ w.size = values.length ∧ w.capacity = r.capacity ∧
      w.is_using_static_buffer = r.is_using_static_buffer ∧ w.data.length = r.data.length ∧
      (values.length < n → w.size ≠ w.capacity) := by
  have h0 : (init : vector T N).Laid [] N := by simp [Laid, init, data]
  by_cases hn : n ≤ N
  · obtain ⟨w, hw, hl, hs, hc, hm, -⟩ := push_all_within values (init : vector T N) [] N h0 rfl
      (by simp [init]) (by omega)
    simp only [List.nil_append, List.length_nil, Nat.zero_add] at hl hs
    have hcN : w.capacity_ = N := hc
    refine ⟨init, w, by unfold reserve; rw [if_pos (by simpa [capacity, init] using hn)],
      by simp [capacity, init, hn], rfl, hw, hs, hc, hm, ?_, ?_⟩
    · unfold Laid at hl h0
      rw [hl, h0]; simp; omega
    · intro h; simp only [size, capacity, hs, hcN]; omega
  · obtain ⟨r, hr, hd, hs0, hc0, -⟩ := reserve_grow (init : vector T N) [] N n h0 rfl
      (by simp [init]; omega) (by simp) hb
    obtain ⟨-, hdata⟩ := dynamic_of_data r _ hd
    simp only [List.map_nil, List.nil_append, List.length_nil, Nat.sub_zero] at hdata
    have hl0 : r.Laid [] n := by simpa [Laid] using hdata
    have hs0' : r.size_ = 0 := hs0
    obtain ⟨w, hw, hl, hs, hc, hm, -⟩ := push_all_within values r [] n hl0 hs0'
      (by simp [hc0]) hlen
    simp only [List.nil_append, List.length_nil, Nat.zero_add] at hl hs
    refine ⟨r, w, hr, by simp [capacity, hc0]; omega, hs0', hw, hs, hc, hm, ?_, ?_⟩
    · unfold Laid at hl
      rw [hl, hdata]; simp; omega
    · intro h; simp only [size, capacity, hs, hc, hc0]; omega

/-- C15 at `N = 8` with `n = 10` and ten pushes. -/
theorem reserve_then_pushes_keep_buffer_witness :
    element_bytes Nat 8 * 10 < size_t_range ∧ [1, 2, 3, 4, 5, 6, 7, 8, 9, 10].length ≤ 10 ∧
    ∃ r w, (init : vector Nat 8).reserve 10 = .ok r ∧ r.capacity = max 8 10 ∧ r.size = 0 ∧
      r.push_all [1, 2, 3, 4, 5, 6, 7, 8, 9, 10] = .ok w ∧
      w.size = [1, 2, 3, 4, 5, 6, 7, 8, 9, 10].length ∧ w.capacity = r.capacity ∧
      w.is_using_static_buffer = r.is_using_static_buffer ∧ w.data.length = r.data.length ∧
      ([1, 2, 3, 4, 5, 6, 7, 8, 9, 10].length < 10 → w.size ≠ w.capacity) :=
  ⟨by decide, by decide,
    reserve_then_pushes_keep_buffer 10 (by decide) [1, 2, 3, 4, 5, 6, 7, 8, 9, 10] (by decide)⟩

/-- C16: on a valid container, `pop_back()` with `size == 0` returns the
container as it was; otherwise it succeeds, the size decreases by exactly 1, the
slot of the former last element is raw, the elements at `[0, size - 1)` keep
their values, and the container is valid.  When the container has at least one
slot, `push_back(x)` followed by `pop_back()` gives back the size and the
elements it had. -/
theorem pop_back_removes_last (v : vector T N) (hv : v.Valid) (hpos : 0 < v.capacity) (x : T) :
    (v.size = 0 → v.pop_back = .ok v) ∧
    (v.size ≠ 0 → ∃ w, v.pop_back = .ok w ∧ w.size = v.size - 1 ∧
      w.data[v.size - 1]? = some none ∧
      (∀ i, i < v.size - 1 → ∃ y, v.at_index i = .ok y ∧ w.at_index i = .ok y) ∧ w.Valid) ∧
    (∃ w u, v.push_back x = .ok w ∧ w.pop_back = .ok u ∧ u.same_elements v) := by
  have hfit := double_capacity_fits v hv
  obtain ⟨stv, capv, invv, adv⟩ := hv
  obtain ⟨xs, lx, hx⟩ := laid_of_invariant v invv
  unfold CapacityInvariant at capv
  have lev := invv.1
  refine ⟨fun h => pop_back_empty v h, ?_, ?_⟩
  · intro hne
    simp only [size] at hne ⊢
    have hxs : xs ≠ [] := by
      intro h; rw [h] at lx; simp at lx; omega
    obtain ⟨ys, y, rfl⟩ : ∃ ys y, xs = ys ++ [y] :=
      ⟨xs.dropLast, xs.getLast hxs, (List.dropLast_append_getLast hxs).symm⟩
    simp only [List.length_append, List.length_singleton] at lx
    obtain ⟨w, hp, hl, hs, hc, hm, hst⟩ := pop_back_laid v ys y _ hx lx.symm
    refine ⟨w, hp, by omega, ?_, ?_, valid_of_laid w ys _ hl hs (hst.trans stv) (by omega)
      (addressable_of_capacity v w hc adv)⟩
    · unfold Laid at hl
      rw [hl, List.getElem?_append_right (by simp; omega)]
      simp [List.replicate_succ, ← lx]
    · intro i hi
      have hi' : i < ys.length := by omega
      obtain ⟨z, hz, hwz⟩ := at_index_of_laid_exists w ys _ hl i hi'
      exact ⟨z, at_index_of_laid_some v _ _ hx i z
        (by rw [List.getElem?_append_left hi']; exact hz), hwz⟩
  · obtain ⟨w, l, hp, hl, hs, hc, hst, -⟩ :=
      push_back_spec v xs _ x hx lx.symm (by omega) hpos (fun _ => hfit)
    obtain ⟨u, hu, hlu, hsu, -, -, -⟩ := pop_back_laid w xs x l hl hs
    exact ⟨w, u, hp, hu, same_elements_of_laid u v xs _ _ hlu hx hsu lx.symm⟩

/-- C16 for a container holding five elements in its inline array (`N = 8`). -/
theorem pop_back_removes_last_witness :
    example_static_five.Valid ∧ 0 < example_static_five.capacity ∧
    (example_static_five.size = 0 → example_static_five.pop_back = .ok example_static_five) ∧
    (example_static_five.size ≠ 0 → ∃ w, example_static_five.pop_back = .ok w ∧
      w.size = example_static_five.size - 1 ∧
      w.data[example_static_five.size - 1]? = some none ∧
      (∀ i, i < example_static_five.size - 1 →
        ∃ y, example_static_five.at_index i = .ok y ∧ w.at_index i = .ok y) ∧ w.Valid) ∧
    (∃ w u, example_static_five.push_back 16 = .ok w ∧ w.pop_back = .ok u ∧
      u.same_elements example_static_five) :=
  ⟨by decide, by decide, pop_back_removes_last example_static_five (by decide) (by decide) 16⟩

/-- C17: on a valid container, `pop_back()` and `clear()` succeed and leave the
capacity, the mode and the number of slots of the buffer in use as they were,
and `clear()` leaves `size == 0`; so does any run of `pop_back()` and `clear()`
calls, after which the container is still valid: a container in dynamic mode
stays in dynamic mode with the same capacity. -/
theorem shrinking_keeps_capacity (v : vector T N) (hv : v.Valid) (calls : List shrink_call) :
    (∃ p, v.pop_back = .ok p ∧ p.capacity = v.capacity ∧
      p.is_using_static_buffer = v.is_using_static_buffer ∧ p.data.length = v.data.length) ∧
    (∃ c, v.clear = .ok c ∧ c.size = 0 ∧ c.capacity = v.capacity ∧
      c.is_using_static_buffer = v.is_using_static_buffer ∧ c.data.length = v.data.length) ∧
    (∃ w, v.run_shrink_calls calls = .ok w ∧ w.capacity = v.capacity ∧
      w.is_using_static_buffer = v.is_using_static_buffer ∧ w.data.length = v.data.length ∧
      w.Valid) := by
  have hd := data_length_of_valid v hv
  refine ⟨?_, ?_, ?_⟩
  · obtain ⟨p, hp, hpv, hpc, hpm, -⟩ := pop_back_valid v hv
    exact ⟨p, hp, hpc, hpm, by rw [data_length_of_valid p hpv, hd, hpc]⟩
  · obtain ⟨c, hc, hcv, hcc, hcm, hcs⟩ := clear_valid v hv
    exact ⟨c, hc, hcs, hcc, hcm, by rw [data_length_of_valid c hcv, hd, hcc]⟩
  · obtain ⟨w, hw, hwv, hwc, hwm, -⟩ := run_shrink_calls_valid calls v hv
    exact ⟨w, hw, hwc, hwm, by rw [data_length_of_valid w hwv, hd, hwc], hwv⟩

/-- C17 for a container in dynamic mode holding nine elements (`N = 8`). -/
theorem shrinking_keeps_capacity_witness :
    example_dynamic_nine.Valid ∧
    (∃ p, example_dynamic_nine.pop_back = .ok p ∧ p.capacity = example_dynamic_nine.capacity ∧
      p.is_using_static_buffer = example_dynamic_nine.is_using_static_buffer ∧
      p.data.length = example_dynamic_nine.data.length) ∧
    (∃ c, example_dynamic_nine.clear = .ok c ∧ c.size = 0 ∧
      c.capacity = example_dynamic_nine.capacity ∧
      c.is_using_static_buffer = example_dynamic_nine.is_using_static_buffer ∧
      c.data.length = example_dynamic_nine.data.length) ∧
    (∃ w, example_dynamic_nine.run_shrink_calls [.pop_back, .pop_back, .clear, .pop_back]
        = .ok w ∧ w.capacity = example_dynamic_nine.capacity ∧
      w.is_using_static_buffer = example_dynamic_nine.is_using_static_buffer ∧
      w.data.length = example_dynamic_nine.data.length ∧ w.Valid) :=
  ⟨by decide, shrinking_keeps_capacity example_dynamic_nine (by decide)
    [.pop_back, .pop_back, .clear, .pop_back]⟩

/-- C18: `N = 8`, `S` holds five strings in its inline array and `D`, in dynamic
mode, was emptied by `pop_back` from nine strings down to two; both are valid.
`S.swap(D)` runs `std::swap_ranges` over `S.size() = 5` slots of both buffers,
but slot 2 of the block of `D` (index 2 is not below `D.size() = 2`) holds no
object: the exchange reads raw storage, and the execution leaves defined
behaviour. -/
theorem swap_reads_raw_slot_of_shorter_dynamic :
    ∃ D0 S D : vector String 8,
      (init : vector String 8).push_all ["s1", "s2", "s3", "s4", "s5"] = .ok S ∧
      (init : vector String 8).push_all ["d1", "d2", "d3", "d4", "d5", "d6", "d7", "d8", "d9"]
        = .ok D0 ∧
      D0.run_shrink_calls [.pop_back, .pop_back, .pop_back, .pop_back, .pop_back, .pop_back,
        .pop_back] = .ok D ∧
      S.Valid ∧ D.Valid ∧ S.is_using_static_buffer = true ∧ D.is_using_static_buffer = false ∧
      S.size = 5 ∧ D.size = 2 ∧ D.data[2]? = some none ∧
      swap_ranges S.data S.size D.data = .error .uninitialised ∧
      S.swap D = .error .uninitialised ∧ D.swap S = .error .uninitialised :=
  ⟨_, _, _, rfl, rfl, rfl, by decide, by decide, rfl, rfl, rfl, rfl, rfl, rfl, rfl, rfl⟩

/-- C19: for `N ≥ 1`, a valid container `S` in static mode with `s` elements and
a valid container `D` in dynamic mode with `d ≥ s` elements, `S.swap(D)` (and
`D.swap(S)`) succeeds; afterwards the formerly static side has size exactly `d`
and holds the `d` elements of `D` in order, and the formerly dynamic side is
still in dynamic mode on a block with as many slots as before, has size exactly
`s` and holds the `s` elements of `S` in order; on both sides the live objects
are exactly the slots `[0, size)`. -/
theorem swap_static_with_longer_dynamic (S D : vector T N) (hN : 0 < N) (hS : S.Valid)
    (hD : D.Valid) (sS : S.is_using_static_buffer = true)
    (sD : D.is_using_static_buffer = false) (hle : S.size ≤ D.size) :
    ∃ S' D', S.swap D = .ok (S', D') ∧ D.swap S = .ok (D', S') ∧
      S'.size = D.size ∧ S'.same_elements D ∧ D'.size = S.size ∧ D'.same_elements S ∧
      D'.is_using_static_buffer = false ∧ D'.data.length = D.data.length ∧
      S'.ElementInvariant ∧ D'.ElementInvariant := by
  obtain ⟨S', D', h1, h2, hS', hD', iS, iD, mD, lD, -, -, -⟩ :=
    swap_mixed_spec S D hN hS hD.2.2.1 sS sD hle (double_size_fits D hD)
  exact ⟨S', D', h1, h2, hS'.1, hS', hD'.1, hD', mD, lD, iS, iD⟩

/-- C19 at `N = 8`: a container holding two elements in its inline array and one
holding nine in a heap block. -/
theorem swap_static_with_longer_dynamic_witness :
    0 < 8 ∧ example_static_two.Valid ∧ example_dynamic_nine.Valid ∧
    example_static_two.size ≤ example_dynamic_nine.size ∧
    ∃ S' D', example_static_two.swap example_dynamic_nine = .ok (S', D') ∧
      example_dynamic_nine.swap example_static_two = .ok (D', S') ∧
      S'.size = example_dynamic_nine.size ∧ S'.same_elements example_dynamic_nine ∧
      D'.size = example_static_two.size ∧ D'.same_elements example_static_two ∧
      D'.is_using_static_buffer = false ∧ D'.data.length = example_dynamic_nine.data.length ∧
      S'.ElementInvariant ∧ D'.ElementInvariant :=
  ⟨by decide, by decide, by decide, by decide,
    swap_static_with_longer_dynamic example_static_two example_dynamic_nine (by decide)
      (by decide) (by decide) rfl rfl (by decide)⟩

/-- C20: `N = 8`, a valid container in dynamic mode holds nine strings in a
block of 16 slots.  `reserve(32)` succeeds, and the old block is handed to
`::operator delete` with its nine objects still live: none of them has been
destroyed.  (A container in static mode does get the objects of its inline
array destroyed: after `reserve(10)` on five strings all 8 inline slots are
raw.) -/
theorem reserve_releases_block_with_live_objects :
    ∃ C S : vector String 8, ∃ r q : reserve_record String 8, ∃ old : List (Option String),
      (init : vector String 8).push_all ["s1", "s2", "s3", "s4", "s5", "s6", "s7", "s8", "s9"]
        = .ok C ∧
      C.Valid ∧ C.is_using_static_buffer = false ∧ C.capacity < 32 ∧
      reserve_traced true (fun _ => true) C 32 = .ok r ∧ C.reserve 32 = .ok r.after ∧
      r.thrown = false ∧ r.deleted = some old ∧
      old.length = 16 ∧ (∀ s ∈ old.take 9, s.isSome = true) ∧
      (init : vector String 8).push_all ["t1", "t2", "t3", "t4", "t5"] = .ok S ∧
      S.is_using_static_buffer = true ∧ reserve_traced true (fun _ => true) S 10 = .ok q ∧
      q.deleted = none ∧ q.after.storage_ = List.replicate 8 none :=
  ⟨_, _, _, _, _, rfl, by decide, rfl, by decide, rfl, rfl, rfl, rfl, rfl, by decide, rfl, rfl,
    rfl, rfl, rfl⟩

end vector

end test
